import Mathlib

/-!
Verification of the calendar reconciliation core of "The Deck".

The definitions below are a shallow embedding of the server routes:
the provider sync loops (`routes/calendars.js`, both the per-user-config
and the deployment-config variant), the task/event linkage
(`routes/tasks.js`), and the local event writers (`routes/events.js`),
over an explicit in-memory model of the `events`, `tasks` and
`calendar_accounts` tables.
-/

namespace TheDeck

/-! ## JavaScript truthiness helpers

The route code uses `x || y` and `if (x)` on string values, where both
`undefined`/`null` and the empty string are falsy.  An optional string
value is modelled as `Option String`, with `none` playing the role of
`undefined`/`null`. -/

/-- Truthiness of an optional string value: `none` and `""` are falsy. -/
def jsTruthy : Option String → Bool
  | none => false
  | some s => !(s = "")

/-- `a || b` on two optional string values. -/
def jsOrOpt (a b : Option String) : Option String :=
  if jsTruthy a then a else if jsTruthy b then b else none

/-- `a || d` where `d` is a plain (truthy) default string. -/
def jsOrDefault (a : Option String) (d : String) : String :=
  match a with
  | some s => if s = "" then d else s
  | none => d

/-- `a || null`: keep a truthy string, collapse falsy values to `none`. -/
def jsOrNull (a : Option String) : Option String :=
  if jsTruthy a then a else none

/-! ## The `events` table -/

/-- One row of the `events` table (the columns the sync logic touches).
`start_time`/`end_time` are kept as the stored strings; `all_day` is the
0/1 flag as a `Bool`. -/
structure EventRow where
  id : Nat
  user_id : Nat
  project_id : Option Nat
  title : String
  description : Option String
  start_time : Option String
  end_time : Option String
  all_day : Bool
  source : String
  external_id : Option String
  calendar_account_id : Option Nat
  deriving Repr, DecidableEq

/-- The mirror store: the `events` table plus the next AUTOINCREMENT id. -/
structure Store where
  events : List EventRow
  nextId : Nat
  deriving Repr, DecidableEq

/-- The reconciliation join key test used by
`SELECT id FROM events WHERE external_id = ? AND calendar_account_id = ?`. -/
def keyMatch (k : String) (a : Nat) (r : EventRow) : Bool :=
  decide (r.external_id = some k ∧ r.calendar_account_id = some a)

/-- Number of mirror rows with the given (external id, account id) key. -/
def countKey (st : Store) (k : String) (a : Nat) : Nat :=
  st.events.countP (keyMatch k a)

/-- The row the upsert lookup returns (`.get` on the key query). -/
def findMirror (st : Store) (k : String) (a : Nat) : Option EventRow :=
  st.events.find? (keyMatch k a)

/-! ## The upsert step shared by both provider loops -/

/-- The five fields the sync loops derive from a remote event and write
into a mirror row. -/
structure MirrorFields where
  title : String
  description : Option String
  start : Option String
  stop : Option String
  allDay : Bool
  deriving Repr, DecidableEq

/-- Overwrite exactly the five synced columns of a row, as in
`UPDATE events SET title = ?, description = ?, start_time = ?, end_time = ?,
all_day = ? WHERE id = ?`. -/
def setFields (f : MirrorFields) (r : EventRow) : EventRow :=
  { r with
    title := f.title
    description := f.description
    start_time := f.start
    end_time := f.stop
    all_day := f.allDay }

/-- A freshly inserted mirror row: it carries the provider source tag,
the external id and the account reference, as in the sync loops'
`INSERT INTO events (...)`. -/
def mirrorRow (u a : Nat) (src k : String) (f : MirrorFields) (nid : Nat) : EventRow :=
  { id := nid
    user_id := u
    project_id := none
    title := f.title
    description := f.description
    start_time := f.start
    end_time := f.stop
    all_day := f.allDay
    source := src
    external_id := some k
    calendar_account_id := some a }

/-- One iteration of the sync upsert loop for a non-cancelled remote
event: look the row up by (external id, account id); if found, update the
five synced columns in place (`WHERE id = ?`); otherwise insert a fresh
mirror row. -/
def applyMirror (u a : Nat) (src k : String) (f : MirrorFields) (st : Store) : Store :=
  match st.events.find? (keyMatch k a) with
  | some row =>
    { st with
      events := st.events.map (fun r => if r.id = row.id then setFields f r else r) }
  | none =>
    { st with
      events := st.events ++ [mirrorRow u a src k f st.nextId]
      nextId := st.nextId + 1 }

/-! ## Google events -/

/-- A Google Calendar API event record, with the fields the sync loop
reads.  `start.dateTime`/`start.date` and the optional `end` object are
flattened into four optional strings. -/
structure GEvent where
  id : String
  status : Option String
  summary : Option String
  description : Option String
  startDateTime : Option String
  startDate : Option String
  endDateTime : Option String
  endDate : Option String
  deriving Repr, DecidableEq

/-- `event.status === 'cancelled'`. -/
def cancelledG (e : GEvent) : Bool :=
  decide (e.status = some "cancelled")

/-- Field derivation of the Google loop:
`startTime = event.start.dateTime || event.start.date`,
`endTime = event.end?.dateTime || event.end?.date || startTime`,
`allDay = !event.start.dateTime`, plus the `'Untitled'` and `null`
defaults for title and description. -/
def googleFields (e : GEvent) : MirrorFields :=
  { title := jsOrDefault e.summary "Untitled"
    description := jsOrNull e.description
    start := jsOrOpt e.startDateTime e.startDate
    stop := jsOrOpt (jsOrOpt e.endDateTime e.endDate) (jsOrOpt e.startDateTime e.startDate)
    allDay := !(jsTruthy e.startDateTime) }

/-- One Google loop iteration: skip cancelled events, upsert the rest. -/
def applyGoogle (u a : Nat) (st : Store) (e : GEvent) : Store :=
  if cancelledG e then st else applyMirror u a "google" e.id (googleFields e) st

/-- Store effect of the whole Google sync loop over a listing. -/
def googleApplyAll (u a : Nat) (evs : List GEvent) (st : Store) : Store :=
  evs.foldl (applyGoogle u a) st

/-- The Google sync loop with its `synced` counter: cancelled events are
skipped without incrementing, every other event is upserted and counted. -/
def googleReconcile (u a : Nat) (evs : List GEvent) (st : Store) : Store × Nat :=
  evs.foldl
    (fun p e => if cancelledG e then p else (applyMirror u a "google" e.id (googleFields e) p.1, p.2 + 1))
    (st, 0)

/-! ## Outlook events -/

/-- A Microsoft Graph calendar event record, with the fields the sync
loop reads.  Graph always supplies `start.dateTime`/`end.dateTime`
together with a time zone name. -/
structure OEvent where
  id : String
  isCancelled : Bool
  subject : Option String
  bodyPreview : Option String
  startDateTime : String
  startTimeZone : String
  endDateTime : String
  endTimeZone : String
  isAllDay : Bool
  deriving Repr, DecidableEq

/-- Field derivation of the Outlook loop:
`startTime = event.start.dateTime + (event.start.timeZone === 'UTC' ? 'Z' : '')`,
likewise for `endTime`, and `allDay = event.isAllDay`. -/
def outlookFields (e : OEvent) : MirrorFields :=
  { title := jsOrDefault e.subject "Untitled"
    description := jsOrNull e.bodyPreview
    start := some (e.startDateTime ++ (if e.startTimeZone = "UTC" then "Z" else ""))
    stop := some (e.endDateTime ++ (if e.endTimeZone = "UTC" then "Z" else ""))
    allDay := e.isAllDay }

/-- One Outlook loop iteration: skip cancelled events, upsert the rest. -/
def applyOutlook (u a : Nat) (st : Store) (e : OEvent) : Store :=
  if e.isCancelled then st else applyMirror u a "outlook" e.id (outlookFields e) st

/-- Store effect of the whole Outlook sync loop over a listing. -/
def outlookApplyAll (u a : Nat) (evs : List OEvent) (st : Store) : Store :=
  evs.foldl (applyOutlook u a) st

/-- The Outlook sync loop with its `synced` counter. -/
def outlookReconcile (u a : Nat) (evs : List OEvent) (st : Store) : Store × Nat :=
  evs.foldl
    (fun p e => if e.isCancelled then p else (applyMirror u a "outlook" e.id (outlookFields e) p.1, p.2 + 1))
    (st, 0)

/-! ## Calendar accounts and the sync routes

Instants that the routes only compare (`new Date(x) < new Date()`) are
modelled as `Nat`; the outcomes of the external provider calls (token
refresh, event listing) are inputs of `Except` type, matching the
`try`/`catch` structure of the routes. -/

/-- One row of the `calendar_accounts` table. -/
structure CalAccount where
  id : Nat
  user_id : Nat
  provider : String
  email : String
  accessToken : String
  refreshToken : Option String
  tokenExpiresAt : Option Nat
  enabled : Bool
  lastSyncedAt : Option Nat
  deriving Repr, DecidableEq

/-- `account.token_expires_at && new Date(account.token_expires_at) < new Date()`:
a `null` expiry is falsy, otherwise the instants are compared. -/
def isExpired (acc : CalAccount) (now : Nat) : Bool :=
  match acc.tokenExpiresAt with
  | none => false
  | some t => decide (t < now)

/-- External provider calls a sync route can perform, in order. -/
inductive ExtCall where
  | refreshGoogle
  | listGoogle
  | refreshOutlook
  | listOutlook
  deriving Repr, DecidableEq

/-- Result of a single-account sync route: the store and account as left
in the database, the HTTP outcome (`ok` carries the synced count), and
the trace of provider calls that were made. -/
structure SyncOutcome where
  store : Store
  account : CalAccount
  result : Except String Nat
  calls : List ExtCall
  deriving Repr

/-- A refreshed Google credential bundle: access token and optional
expiry instant. -/
structure GoogleCreds where
  accessToken : String
  expiryDate : Option Nat
  deriving Repr, DecidableEq

/-- A Microsoft token response: access token, optional refresh token,
optional expiry instant. -/
structure MsTokenResponse where
  accessToken : String
  refreshToken : Option String
  expiresOn : Option Nat
  deriving Repr, DecidableEq

/-- Listing phase shared by the tail of `POST /google/sync/:accountId`:
on a listing error the whole handler lands in its `catch` and returns a
500 with nothing further written; on success the upsert loop runs and
`last_synced_at` is set to the completion instant. -/
def googleListPhase (u : Nat) (listing : Except String (List GEvent)) (now : Nat)
    (acc : CalAccount) (st : Store) (pre : List ExtCall) : SyncOutcome :=
  match listing with
  | .error _ =>
    { store := st, account := acc
      result := .error "Failed to sync Google Calendar"
      calls := pre ++ [.listGoogle] }
  | .ok evs =>
    let p := googleReconcile u acc.id evs st
    { store := p.1
      account := { acc with lastSyncedAt := some now }
      result := .ok p.2
      calls := pre ++ [.listGoogle] }

/-- `POST /google/sync/:accountId` (after the account row has been
fetched): bail out if the OAuth client is not configured; refresh the
token first when the stored expiry lies in the past (persisting the new
credentials), with a refresh error caught by the handler's `catch`; then
list and upsert. -/
def googleSyncRoute (configured : Bool) (refreshResult : Except String GoogleCreds)
    (listing : Except String (List GEvent)) (now : Nat) (u : Nat)
    (acc : CalAccount) (st : Store) : SyncOutcome :=
  if !configured then
    { store := st, account := acc, result := .error "Google OAuth not configured", calls := [] }
  else if isExpired acc now then
    match refreshResult with
    | .error _ =>
      { store := st, account := acc
        result := .error "Failed to sync Google Calendar"
        calls := [.refreshGoogle] }
    | .ok creds =>
      let acc1 := { acc with accessToken := creds.accessToken, tokenExpiresAt := creds.expiryDate }
      googleListPhase u listing now acc1 st [.refreshGoogle]
  else
    googleListPhase u listing now acc st []

/-- Listing phase shared by the tail of `POST /outlook/sync/:accountId`. -/
def outlookListPhase (u : Nat) (listing : Except String (List OEvent)) (now : Nat)
    (acc : CalAccount) (st : Store) (pre : List ExtCall) : SyncOutcome :=
  match listing with
  | .error _ =>
    { store := st, account := acc
      result := .error "Failed to sync Outlook Calendar"
      calls := pre ++ [.listOutlook] }
  | .ok evs =>
    let p := outlookReconcile u acc.id evs st
    { store := p.1
      account := { acc with lastSyncedAt := some now }
      result := .ok p.2
      calls := pre ++ [.listOutlook] }

/-- `POST /outlook/sync/:accountId` (after the account row has been
fetched): bail out if MSAL is not configured; when the stored expiry
lies in the past and a refresh token is present, refresh first — its own
`try`/`catch` turns a refresh failure into a 401 "Please reconnect"
response without listing; then list and upsert. -/
def outlookSyncRoute (configured : Bool) (refreshResult : Except String MsTokenResponse)
    (listing : Except String (List OEvent)) (now : Nat) (u : Nat)
    (acc : CalAccount) (st : Store) : SyncOutcome :=
  if !configured then
    { store := st, account := acc, result := .error "Outlook OAuth not configured", calls := [] }
  else if isExpired acc now && acc.refreshToken.isSome then
    match refreshResult with
    | .error _ =>
      { store := st, account := acc
        result := .error "Please reconnect your Outlook account"
        calls := [.refreshOutlook] }
    | .ok tr =>
      let acc1 := { acc with
        accessToken := tr.accessToken
        refreshToken := match tr.refreshToken with
          | some t => some t
          | none => acc.refreshToken
        tokenExpiresAt := tr.expiresOn }
      outlookListPhase u listing now acc1 st [.refreshOutlook]
  else
    outlookListPhase u listing now acc st []

/-! ## `POST /sync-all` -/

/-- One entry of the `results` array: provider, email, and either a
synced count or an error message. -/
structure SyncResultEntry where
  provider : String
  email : String
  outcome : Except String Nat
  deriving Repr

/-- State threaded through the `for (const account of accounts)` loop of
the sync-all handlers. -/
structure BatchState where
  store : Store
  accounts : List CalAccount
  results : List SyncResultEntry
  calls : List ExtCall
  deriving Repr

/-- Mark one account row as synced now. -/
def touchAccount (accs : List CalAccount) (accId now : Nat) : List CalAccount :=
  accs.map (fun a => if a.id = accId then { a with lastSyncedAt := some now } else a)

/-- One iteration of the sync-all loop in the per-user-config variant:
an unconfigured provider yields an `'OAuth not configured'` error entry
and the loop continues; otherwise the listing call is made, a thrown
error is recorded per account, and a successful listing is upserted with
`last_synced_at` touched.  No token refresh happens here. -/
def syncAllStepPerUser (gConf mConf : Bool)
    (fetchG : CalAccount → Except String (List GEvent))
    (fetchO : CalAccount → Except String (List OEvent))
    (u now : Nat) (b : BatchState) (acc : CalAccount) : BatchState :=
  if acc.provider = "google" then
    if !gConf then
      { b with results := b.results ++ [⟨"google", acc.email, .error "OAuth not configured"⟩] }
    else
      match fetchG acc with
      | .error msg =>
        { b with
          results := b.results ++ [⟨"google", acc.email, .error msg⟩]
          calls := b.calls ++ [.listGoogle] }
      | .ok evs =>
        let p := googleReconcile u acc.id evs b.store
        { store := p.1
          accounts := touchAccount b.accounts acc.id now
          results := b.results ++ [⟨"google", acc.email, .ok p.2⟩]
          calls := b.calls ++ [.listGoogle] }
  else if acc.provider = "outlook" then
    if !mConf then
      { b with results := b.results ++ [⟨"outlook", acc.email, .error "OAuth not configured"⟩] }
    else
      match fetchO acc with
      | .error msg =>
        { b with
          results := b.results ++ [⟨"outlook", acc.email, .error msg⟩]
          calls := b.calls ++ [.listOutlook] }
      | .ok evs =>
        let p := outlookReconcile u acc.id evs b.store
        { store := p.1
          accounts := touchAccount b.accounts acc.id now
          results := b.results ++ [⟨"outlook", acc.email, .ok p.2⟩]
          calls := b.calls ++ [.listOutlook] }
  else
    b

/-- `POST /sync-all` of the per-user-config variant: iterate over the
user's enabled accounts, recording one outcome per handled account. -/
def syncAllPerUser (gConf mConf : Bool)
    (fetchG : CalAccount → Except String (List GEvent))
    (fetchO : CalAccount → Except String (List OEvent))
    (u now : Nat) (accounts : List CalAccount) (st : Store) : BatchState :=
  (accounts.filter (·.enabled)).foldl (syncAllStepPerUser gConf mConf fetchG fetchO u now)
    { store := st, accounts := accounts, results := [], calls := [] }

/-- One iteration of the sync-all loop in the deployment-config variant:
the branch guards are `provider === 'google' && googleOAuth2Client` and
`provider === 'outlook' && msalClient`, so an enabled account whose
provider client is not configured falls through both branches and leaves
no trace at all — no result entry is recorded for it. -/
def syncAllStepDeployment (gConf mConf : Bool)
    (fetchG : CalAccount → Except String (List GEvent))
    (fetchO : CalAccount → Except String (List OEvent))
    (u now : Nat) (b : BatchState) (acc : CalAccount) : BatchState :=
  if acc.provider = "google" && gConf then
    match fetchG acc with
    | .error msg =>
      { b with
        results := b.results ++ [⟨"google", acc.email, .error msg⟩]
        calls := b.calls ++ [.listGoogle] }
    | .ok evs =>
      let p := googleReconcile u acc.id evs b.store
      { store := p.1
        accounts := touchAccount b.accounts acc.id now
        results := b.results ++ [⟨"google", acc.email, .ok p.2⟩]
        calls := b.calls ++ [.listGoogle] }
  else if acc.provider = "outlook" && mConf then
    match fetchO acc with
    | .error msg =>
      { b with
        results := b.results ++ [⟨"outlook", acc.email, .error msg⟩]
        calls := b.calls ++ [.listOutlook] }
    | .ok evs =>
      let p := outlookReconcile u acc.id evs b.store
      { store := p.1
        accounts := touchAccount b.accounts acc.id now
        results := b.results ++ [⟨"outlook", acc.email, .ok p.2⟩]
        calls := b.calls ++ [.listOutlook] }
  else
    b

/-- `POST /sync-all` of the deployment-config variant. -/
def syncAllDeployment (gConf mConf : Bool)
    (fetchG : CalAccount → Except String (List GEvent))
    (fetchO : CalAccount → Except String (List OEvent))
    (u now : Nat) (accounts : List CalAccount) (st : Store) : BatchState :=
  (accounts.filter (·.enabled)).foldl (syncAllStepDeployment gConf mConf fetchG fetchO u now)
    { store := st, accounts := accounts, results := [], calls := [] }

/-! ## Tasks and the task/event linkage (`routes/tasks.js`) -/

/-- One row of the `tasks` table. -/
structure TaskRow where
  id : Nat
  user_id : Nat
  project_id : Option Nat
  event_id : Option Nat
  title : String
  description : Option String
  priority : String
  status : String
  due_date : Option String
  deriving Repr, DecidableEq

/-- The tables the task routes touch: tasks, events (shared with the
sync loops), the user's project ids (for the ownership check), and the
two AUTOINCREMENT counters. -/
structure TES where
  tasks : List TaskRow
  events : List EventRow
  projects : List (Nat × Nat)
  nextTaskId : Nat
  nextEventId : Nat
  deriving Repr, DecidableEq

/-- The task row with the given id, as re-fetched by
`SELECT * FROM tasks WHERE id = ?`. -/
def findTask (st : TES) (tid : Nat) : Option TaskRow :=
  st.tasks.find? (fun t => decide (t.id = tid))

/-- `syncTaskEvent(task, userId)`: with a falsy due date, delete the
linked event (if any) and null the task's `event_id`; with a truthy due
date, update the linked event in place when one exists, otherwise insert
a fresh local all-day event and store its id in the task. -/
def syncTaskEvent (t : TaskRow) (u : Nat) (st : TES) : TES :=
  if !(jsTruthy t.due_date) then
    match t.event_id with
    | some eid =>
      { st with
        events := st.events.filter (fun r => !(decide (r.id = eid)))
        tasks := st.tasks.map (fun x => if x.id = t.id then { x with event_id := none } else x) }
    | none => st
  else
    let d := t.due_date.getD ""
    let eventTitle := "Task Due: " ++ t.title
    let eventDescription := jsOrDefault t.description ("Task \"" ++ t.title ++ "\" is due")
    match t.event_id with
    | some eid =>
      { st with
        events := st.events.map (fun r =>
          if r.id = eid then
            { r with
              title := eventTitle
              description := some eventDescription
              start_time := some d
              project_id := t.project_id
              all_day := true }
          else r) }
    | none =>
      { st with
        events := st.events ++
          [{ id := st.nextEventId
             user_id := u
             project_id := t.project_id
             title := eventTitle
             description := some eventDescription
             start_time := some d
             end_time := none
             all_day := true
             source := "local"
             external_id := none
             calendar_account_id := none }]
        nextEventId := st.nextEventId + 1
        tasks := st.tasks.map (fun x =>
          if x.id = t.id then { x with event_id := some st.nextEventId } else x) }

/-- `POST /` on tasks: validate title and project ownership, insert the
task row (with `|| null` / default collapsing of falsy inputs), then run
`syncTaskEvent` when the request carried a truthy due date.  Returns the
new task's id on success. -/
def createTask (u : Nat) (title : String) (descr : Option String)
    (proj : Option Nat) (prio stat : Option String) (due : Option String)
    (st : TES) : TES × Except String Nat :=
  if title = "" then (st, .error "Task title is required")
  else if (match proj with
           | some p => !(st.projects.contains (p, u))
           | none => false) then
    (st, .error "Invalid project")
  else
    let t : TaskRow :=
      { id := st.nextTaskId
        user_id := u
        project_id := proj
        event_id := none
        title := title
        description := jsOrNull descr
        priority := jsOrDefault prio "medium"
        status := jsOrDefault stat "pending"
        due_date := jsOrNull due }
    let st1 := { st with tasks := st.tasks ++ [t], nextTaskId := st.nextTaskId + 1 }
    if jsTruthy due then (syncTaskEvent t u st1, .ok t.id)
    else (st1, .ok t.id)

/-- `PUT /:id` on tasks: `none` in an outer `Option` stands for an
absent (`undefined`) request field, so `descr`, `proj` and `due` carry
the JavaScript `undefined` / `null` / value distinction.  The task row
is updated, re-fetched, and `syncTaskEvent` always runs afterwards. -/
def updateTask (u tid : Nat) (title : Option String)
    (descr : Option (Option String)) (proj : Option (Option Nat))
    (prio stat : Option String) (due : Option (Option String))
    (st : TES) : TES × Except String Unit :=
  match st.tasks.find? (fun t => decide (t.id = tid ∧ t.user_id = u)) with
  | none => (st, .error "Task not found")
  | some ex =>
    if (match proj with
        | some (some p) => !(st.projects.contains (p, u))
        | _ => false) then
      (st, .error "Invalid project")
    else
      let t1 : TaskRow :=
        { ex with
          title := jsOrDefault title ex.title
          description := (match descr with | some d => d | none => ex.description)
          project_id := (match proj with | some p => p | none => ex.project_id)
          priority := jsOrDefault prio ex.priority
          status := jsOrDefault stat ex.status
          due_date := (match due with | some d => d | none => ex.due_date) }
      let st1 := { st with
        tasks := st.tasks.map (fun x => if x.id = tid ∧ x.user_id = u then t1 else x) }
      (syncTaskEvent t1 u st1, .ok ())

/-! ## Local event writers (`routes/events.js`) -/

/-- `POST /` on events: the insert names neither `source` nor
`external_id` nor `calendar_account_id`, so the schema defaults apply:
`source = 'local'` and both references `NULL`. -/
def createLocalEvent (u : Nat) (proj : Option Nat) (title : String)
    (descr : Option String) (startT : String) (endT : Option String)
    (allDay : Bool) (st : Store) : Store :=
  { st with
    events := st.events ++
      [{ id := st.nextId
         user_id := u
         project_id := proj
         title := title
         description := jsOrNull descr
         start_time := some startT
         end_time := endT
         all_day := allDay
         source := "local"
         external_id := none
         calendar_account_id := none }]
    nextId := st.nextId + 1 }

/-- `PUT /:id` on events: update title, description, project, start,
end and the all-day flag of the user's row; `source`, `external_id` and
`calendar_account_id` are never written. -/
def updateLocalEvent (u eid : Nat) (title : Option String)
    (descr : Option (Option String)) (proj : Option (Option Nat))
    (startT : Option String) (endT : Option (Option String))
    (allDay : Option Bool) (st : Store) : Store :=
  { st with
    events := st.events.map (fun r =>
      if r.id = eid ∧ r.user_id = u then
        { r with
          title := jsOrDefault title r.title
          description := (match descr with | some d => d | none => r.description)
          project_id := (match proj with | some p => p | none => r.project_id)
          start_time := (match startT with
            | some s => if s = "" then r.start_time else some s
            | none => r.start_time)
          end_time := (match endT with | some e => e | none => r.end_time)
          all_day := (match allDay with | some b => b | none => r.all_day) }
      else r) }

/-! ## Store invariants -/

/-- Row ids are pairwise distinct and below the AUTOINCREMENT counter. -/
def IdsOk (st : Store) : Prop :=
  (st.events.map EventRow.id).Nodup ∧ ∀ r ∈ st.events, r.id < st.nextId

/-- At most one mirror row per (external id, account id) key. -/
def KeysOk (st : Store) : Prop :=
  ∀ k a, countKey st k a ≤ 1

/-- The store invariant the upsert loop maintains. -/
def StoreInv (st : Store) : Prop :=
  IdsOk st ∧ KeysOk st

/-! ## List helpers -/

theorem find_eq_head_filter (p : α → Bool) (l : List α) :
    l.find? p = (l.filter p).head? := by
  induction l with
  | nil => rfl
  | cons x xs ih =>
    by_cases h : p x
    · simp [List.find?, List.filter, h]
    · simp only [List.find?, List.filter, h]
      simpa [h] using ih

theorem filter_singleton_of_head (p : α → Bool) (l : List α) (r : α)
    (hh : (l.filter p).head? = some r) (hl : l.countP p ≤ 1) :
    l.filter p = [r] := by
  rcases hf : l.filter p with _ | ⟨x, rest⟩
  · rw [hf] at hh; exact absurd hh (by simp)
  · rw [hf] at hh
    have hx : x = r := by simpa using hh
    have hlen : (l.filter p).length ≤ 1 := by
      rw [← List.countP_eq_length_filter]; exact hl
    rw [hf] at hlen
    have : rest = [] := by
      cases rest with
      | nil => rfl
      | cons y ys => simp at hlen
    simp [hx, this]

theorem id_inj_of_idsOk {st : Store} (h : IdsOk st) {x y : EventRow}
    (hx : x ∈ st.events) (hy : y ∈ st.events) (hxy : x.id = y.id) : x = y :=
  List.inj_on_of_nodup_map h.1 hx hy hxy

/-! ## Lemmas about the upsert step -/

theorem keyMatch_setFields (k : String) (a : Nat) (f : MirrorFields) (r : EventRow) :
    keyMatch k a (setFields f r) = keyMatch k a r := rfl

theorem keyMatch_upd (k : String) (a : Nat) (f : MirrorFields) (rid : Nat) (r : EventRow) :
    keyMatch k a (if r.id = rid then setFields f r else r) = keyMatch k a r := by
  by_cases h : r.id = rid <;> simp [h, keyMatch_setFields]

theorem keyMatch_mirrorRow_self (u a : Nat) (src k : String) (f : MirrorFields) (nid : Nat) :
    keyMatch k a (mirrorRow u a src k f nid) = true := by
  simp [keyMatch, mirrorRow]

theorem keyMatch_mirrorRow_other (u a : Nat) (src k : String) (f : MirrorFields) (nid : Nat)
    (k' : String) (a' : Nat) (h : ¬(k' = k ∧ a' = a)) :
    keyMatch k' a' (mirrorRow u a src k f nid) = false := by
  simp only [keyMatch, mirrorRow, decide_eq_false_iff_not]
  rintro ⟨h1, h2⟩
  exact h ⟨(Option.some_inj.mp h1).symm, (Option.some_inj.mp h2).symm⟩

theorem applyMirror_find_some {st : Store} {k : String} {a : Nat} {row : EventRow}
    (hf : st.events.find? (keyMatch k a) = some row) (u : Nat) (src : String) (f : MirrorFields) :
    applyMirror u a src k f st
      = { st with events := st.events.map (fun r => if r.id = row.id then setFields f r else r) } := by
  unfold applyMirror
  rw [hf]

theorem applyMirror_find_none {st : Store} {k : String} {a : Nat}
    (hf : st.events.find? (keyMatch k a) = none) (u : Nat) (src : String) (f : MirrorFields) :
    applyMirror u a src k f st
      = { st with events := st.events ++ [mirrorRow u a src k f st.nextId], nextId := st.nextId + 1 } := by
  unfold applyMirror
  rw [hf]

theorem countKey_update (st : Store) (k' : String) (a' : Nat) (f : MirrorFields) (rid : Nat) :
    (st.events.map (fun r => if r.id = rid then setFields f r else r)).countP (keyMatch k' a')
      = countKey st k' a' := by
  rw [List.countP_map]
  exact List.countP_congr (fun r _ => by simp [Function.comp, keyMatch_upd])

theorem countKey_of_find_none {st : Store} {k : String} {a : Nat}
    (hf : st.events.find? (keyMatch k a) = none) : countKey st k a = 0 := by
  unfold countKey
  rw [List.countP_eq_zero]
  intro r hr
  simpa using List.find?_eq_none.mp hf r hr

theorem countKey_pos_of_find_some {st : Store} {k : String} {a : Nat} {row : EventRow}
    (hf : st.events.find? (keyMatch k a) = some row) : 0 < countKey st k a := by
  unfold countKey
  rw [List.countP_pos_iff]
  exact ⟨row, List.mem_of_find?_eq_some hf, List.find?_some hf⟩

theorem applyMirror_countKey_self (u a : Nat) (src k : String) (f : MirrorFields) (st : Store) :
    countKey (applyMirror u a src k f st) k a
      = if countKey st k a = 0 then 1 else countKey st k a := by
  cases hf : st.events.find? (keyMatch k a) with
  | none =>
    have hz := countKey_of_find_none hf
    rw [applyMirror_find_none hf, if_pos hz]
    show (st.events ++ [mirrorRow u a src k f st.nextId]).countP (keyMatch k a) = 1
    rw [List.countP_append]
    have : countKey st k a = st.events.countP (keyMatch k a) := rfl
    rw [← this, hz]
    simp [List.countP_cons, keyMatch_mirrorRow_self]
  | some row =>
    have hnz : ¬ countKey st k a = 0 := Nat.pos_iff_ne_zero.mp (countKey_pos_of_find_some hf)
    rw [applyMirror_find_some hf, if_neg hnz]
    exact countKey_update st k a f row.id

theorem applyMirror_countKey_other (u a : Nat) (src k : String) (f : MirrorFields) (st : Store)
    (k' : String) (a' : Nat) (h : ¬(k' = k ∧ a' = a)) :
    countKey (applyMirror u a src k f st) k' a' = countKey st k' a' := by
  cases hf : st.events.find? (keyMatch k a) with
  | some row =>
    rw [applyMirror_find_some hf]
    exact countKey_update st k' a' f row.id
  | none =>
    rw [applyMirror_find_none hf]
    show (st.events ++ [mirrorRow u a src k f st.nextId]).countP (keyMatch k' a')
      = countKey st k' a'
    rw [List.countP_append]
    simp [List.countP_cons, keyMatch_mirrorRow_other u a src k f st.nextId k' a' h, countKey]

theorem applyMirror_idsOk (u a : Nat) (src k : String) (f : MirrorFields) (st : Store)
    (h : IdsOk st) : IdsOk (applyMirror u a src k f st) := by
  cases hf : st.events.find? (keyMatch k a) with
  | some row =>
    rw [applyMirror_find_some hf]
    refine ⟨?_, ?_⟩
    · have hmap : ((st.events.map (fun r => if r.id = row.id then setFields f r else r)).map EventRow.id)
          = st.events.map EventRow.id := by
        rw [List.map_map]
        exact List.map_congr_left (fun r _ => by by_cases hr : r.id = row.id <;> simp [hr, setFields])
      show ((st.events.map (fun r => if r.id = row.id then setFields f r else r)).map EventRow.id).Nodup
      rw [hmap]
      exact h.1
    · intro r hr
      show r.id < st.nextId
      rcases List.mem_map.mp hr with ⟨x, hx, hxr⟩
      have hid : r.id = x.id := by
        subst hxr
        by_cases hxx : x.id = row.id <;> simp [hxx, setFields]
      rw [hid]
      exact h.2 x hx
  | none =>
    rw [applyMirror_find_none hf]
    refine ⟨?_, ?_⟩
    · show ((st.events ++ [mirrorRow u a src k f st.nextId]).map EventRow.id).Nodup
      rw [List.map_append, List.nodup_append]
      refine ⟨h.1, by simp, ?_⟩
      intro x hx
      rcases List.mem_map.mp hx with ⟨r, hr, hrx⟩
      have hb := h.2 r hr
      simp only [List.map_cons, List.map_nil, List.mem_singleton]
      show x ≠ (mirrorRow u a src k f st.nextId).id
      rw [← hrx]
      simp only [mirrorRow]
      omega
    · intro r hr
      rcases List.mem_append.mp hr with hr | hr
      · have := h.2 r hr
        simp only []
        omega
      · simp only [List.mem_singleton] at hr
        subst hr
        simp [mirrorRow]

theorem applyMirror_keysOk (u a : Nat) (src k : String) (f : MirrorFields) (st : Store)
    (h : KeysOk st) : KeysOk (applyMirror u a src k f st) := by
  intro k' a'
  by_cases hk : k' = k ∧ a' = a
  · rcases hk with ⟨rfl, rfl⟩
    rw [applyMirror_countKey_self]
    split
    · omega
    · exact h k' a'
  · rw [applyMirror_countKey_other u a src k f st k' a' hk]
    exact h k' a'

theorem applyMirror_storeInv (u a : Nat) (src k : String) (f : MirrorFields) (st : Store)
    (h : StoreInv st) : StoreInv (applyMirror u a src k f st) :=
  ⟨applyMirror_idsOk u a src k f st h.1, applyMirror_keysOk u a src k f st h.2⟩

theorem applyMirror_countKey_ge (u a : Nat) (src k : String) (f : MirrorFields) (st : Store) :
    1 ≤ countKey (applyMirror u a src k f st) k a := by
  rw [applyMirror_countKey_self]
  split
  · omega
  · next h => omega

theorem applyMirror_countKey_mono (u a : Nat) (src k : String) (f : MirrorFields) (st : Store)
    (k' : String) (a' : Nat) :
    countKey st k' a' ≤ countKey (applyMirror u a src k f st) k' a' := by
  by_cases hk : k' = k ∧ a' = a
  · rcases hk with ⟨rfl, rfl⟩
    rw [applyMirror_countKey_self]
    split
    · next h => omega
    · omega
  · rw [applyMirror_countKey_other u a src k f st k' a' hk]

theorem setFields_idem (f : MirrorFields) (r : EventRow) :
    setFields f (setFields f r) = setFields f r := rfl

theorem filter_key_of_find_some {st : Store} {k : String} {a : Nat} {row : EventRow}
    (hf : st.events.find? (keyMatch k a) = some row) (hk : KeysOk st) :
    st.events.filter (keyMatch k a) = [row] := by
  refine filter_singleton_of_head _ _ _ ?_ (hk k a)
  rw [← find_eq_head_filter]
  exact hf

theorem applyMirror_filter_self (u a : Nat) (src k : String) (f : MirrorFields) (st : Store)
    (hInv : StoreInv st) :
    ∃ r', (applyMirror u a src k f st).events.filter (keyMatch k a) = [r']
      ∧ setFields f r' = r' := by
  cases hf : st.events.find? (keyMatch k a) with
  | some row =>
    refine ⟨setFields f row, ?_, setFields_idem f row⟩
    rw [applyMirror_find_some hf]
    show (st.events.map (fun r => if r.id = row.id then setFields f r else r)).filter (keyMatch k a)
      = [setFields f row]
    rw [List.filter_map]
    have hcong : st.events.filter (keyMatch k a ∘ fun r => if r.id = row.id then setFields f r else r)
        = st.events.filter (keyMatch k a) := by
      exact List.filter_congr (fun r _ => by simp [Function.comp, keyMatch_upd])
    rw [hcong, filter_key_of_find_some hf hInv.2]
    simp
  | none =>
    refine ⟨mirrorRow u a src k f st.nextId, ?_, rfl⟩
    rw [applyMirror_find_none hf]
    show (st.events ++ [mirrorRow u a src k f st.nextId]).filter (keyMatch k a)
      = [mirrorRow u a src k f st.nextId]
    rw [List.filter_append]
    have h1 : st.events.filter (keyMatch k a) = [] :=
      List.filter_eq_nil_iff.mpr (fun r hr => by simpa using List.find?_eq_none.mp hf r hr)
    rw [h1]
    simp [List.filter, keyMatch_mirrorRow_self]

theorem applyMirror_filter_other (u a : Nat) (src k : String) (f : MirrorFields) (st : Store)
    (hids : IdsOk st) (k' : String) (a' : Nat) (h : ¬(k' = k ∧ a' = a)) :
    (applyMirror u a src k f st).events.filter (keyMatch k' a')
      = st.events.filter (keyMatch k' a') := by
  cases hf : st.events.find? (keyMatch k a) with
  | some row =>
    rw [applyMirror_find_some hf]
    show (st.events.map (fun r => if r.id = row.id then setFields f r else r)).filter (keyMatch k' a')
      = st.events.filter (keyMatch k' a')
    rw [List.filter_map]
    have hcong : st.events.filter (keyMatch k' a' ∘ fun r => if r.id = row.id then setFields f r else r)
        = st.events.filter (keyMatch k' a') := by
      exact List.filter_congr (fun r _ => by simp [Function.comp, keyMatch_upd])
    rw [hcong]
    refine Eq.trans (List.map_congr_left ?_) (List.map_id _)
    intro x hx
    have hxmem := List.mem_of_mem_filter hx
    have hxkey : keyMatch k' a' x = true := List.of_mem_filter hx
    have hrowmem := List.mem_of_find?_eq_some hf
    have hrowkey : keyMatch k a row = true := List.find?_some hf
    have hne : ¬ x.id = row.id := by
      intro hid
      have hxr : x = row := id_inj_of_idsOk hids hxmem hrowmem hid
      subst hxr
      simp only [keyMatch, decide_eq_true_eq] at hxkey hrowkey
      exact h ⟨by
        have := hxkey.1.symm.trans hrowkey.1
        exact Option.some_inj.mp this, by
        have := hxkey.2.symm.trans hrowkey.2
        exact Option.some_inj.mp this⟩
    simp [hne]
  | none =>
    rw [applyMirror_find_none hf]
    show (st.events ++ [mirrorRow u a src k f st.nextId]).filter (keyMatch k' a')
      = st.events.filter (keyMatch k' a')
    rw [List.filter_append]
    simp [List.filter, keyMatch_mirrorRow_other u a src k f st.nextId k' a' h]

theorem applyMirror_noop (u a : Nat) (src k : String) (f : MirrorFields) (st : Store)
    (hids : IdsOk st) (r : EventRow)
    (hfil : st.events.filter (keyMatch k a) = [r]) (hr : setFields f r = r) :
    applyMirror u a src k f st = st := by
  have hf : st.events.find? (keyMatch k a) = some r := by
    rw [find_eq_head_filter, hfil]
    rfl
  rw [applyMirror_find_some hf]
  have hrm : r ∈ st.events := by
    have : r ∈ st.events.filter (keyMatch k a) := by rw [hfil]; exact List.mem_singleton_self r
    exact List.mem_of_mem_filter this
  have hmap : st.events.map (fun x => if x.id = r.id then setFields f x else x) = st.events := by
    refine Eq.trans (List.map_congr_left ?_) (List.map_id _)
    intro x hx
    by_cases hid : x.id = r.id
    · have hxr : x = r := id_inj_of_idsOk hids hx hrm hid
      subst hxr
      simp [hr]
    · simp [hid]
  cases st with
  | mk events nextId =>
    simp only at hmap
    simp [hmap]

/-! ## The generic skip-or-upsert loop

Both provider loops are instances of the same shape: skip events whose
cancelled indicator is set, upsert the rest by external id.  The fold
lemmas are proved once over the cancel / key / field parameters and
instantiated for Google and Outlook. -/

section LoopLemmas

variable {E : Type} (u a : Nat) (src : String)
variable (cancel : E → Bool) (key : E → String) (flds : E → MirrorFields)

/-- One generic loop iteration. -/
def applyEv (st : Store) (e : E) : Store :=
  if cancel e then st else applyMirror u a src (key e) (flds e) st

/-- The generic loop over a listing. -/
def applyEvAll (evs : List E) (st : Store) : Store :=
  evs.foldl (applyEv u a src cancel key flds) st

theorem applyEvAll_nil (st : Store) : applyEvAll u a src cancel key flds [] st = st := rfl

theorem applyEvAll_cons (e : E) (evs : List E) (st : Store) :
    applyEvAll u a src cancel key flds (e :: evs) st
      = applyEvAll u a src cancel key flds evs (applyEv u a src cancel key flds st e) := rfl

theorem applyEv_cancel {e : E} (hc : cancel e = true) (st : Store) :
    applyEv u a src cancel key flds st e = st := by
  simp [applyEv, hc]

theorem applyEv_active {e : E} (hc : cancel e = false) (st : Store) :
    applyEv u a src cancel key flds st e = applyMirror u a src (key e) (flds e) st := by
  simp [applyEv, hc]

theorem applyEv_storeInv (st : Store) (e : E) (h : StoreInv st) :
    StoreInv (applyEv u a src cancel key flds st e) := by
  by_cases hc : cancel e
  · rw [applyEv_cancel u a src cancel key flds hc]
    exact h
  · rw [applyEv_active u a src cancel key flds (Bool.not_eq_true _ ▸ eq_false_of_ne_true hc)]
    exact applyMirror_storeInv u a src (key e) (flds e) st h

theorem applyEvAll_storeInv (evs : List E) (st : Store) (h : StoreInv st) :
    StoreInv (applyEvAll u a src cancel key flds evs st) := by
  induction evs generalizing st with
  | nil => exact h
  | cons e rest ih =>
    rw [applyEvAll_cons]
    exact ih _ (applyEv_storeInv u a src cancel key flds st e h)

theorem applyEv_countKey_mono (st : Store) (e : E) (k' : String) (a' : Nat) :
    countKey st k' a' ≤ countKey (applyEv u a src cancel key flds st e) k' a' := by
  by_cases hc : cancel e
  · rw [applyEv_cancel u a src cancel key flds hc]
  · rw [applyEv_active u a src cancel key flds (eq_false_of_ne_true hc)]
    exact applyMirror_countKey_mono u a src (key e) (flds e) st k' a'

theorem applyEvAll_countKey_mono (evs : List E) (st : Store) (k' : String) (a' : Nat) :
    countKey st k' a' ≤ countKey (applyEvAll u a src cancel key flds evs st) k' a' := by
  induction evs generalizing st with
  | nil => exact Nat.le_refl _
  | cons e rest ih =>
    rw [applyEvAll_cons]
    exact Nat.le_trans (applyEv_countKey_mono u a src cancel key flds st e k' a') (ih _)

theorem applyEvAll_countKey_ge_of_mem (evs : List E) (st : Store) (e : E)
    (he : e ∈ evs) (hc : cancel e = false) :
    1 ≤ countKey (applyEvAll u a src cancel key flds evs st) (key e) a := by
  induction evs generalizing st with
  | nil => cases he
  | cons x rest ih =>
    rw [applyEvAll_cons]
    rcases List.mem_cons.mp he with rfl | he'
    · refine Nat.le_trans ?_ (applyEvAll_countKey_mono u a src cancel key flds rest _ (key e) a)
      rw [applyEv_active u a src cancel key flds hc]
      exact applyMirror_countKey_ge u a src (key e) (flds e) st
    · exact ih _ he'

theorem applyEvAll_countKey_eq_one (evs : List E) (st : Store) (e : E)
    (hInv : StoreInv st) (he : e ∈ evs) (hc : cancel e = false) :
    countKey (applyEvAll u a src cancel key flds evs st) (key e) a = 1 := by
  have hle := (applyEvAll_storeInv u a src cancel key flds evs st hInv).2 (key e) a
  have hge := applyEvAll_countKey_ge_of_mem u a src cancel key flds evs st e he hc
  omega

theorem applyEv_filter_self (st : Store) (e : E) (hInv : StoreInv st) (hc : cancel e = false) :
    ∃ r', (applyEv u a src cancel key flds st e).events.filter (keyMatch (key e) a) = [r']
      ∧ setFields (flds e) r' = r' := by
  rw [applyEv_active u a src cancel key flds hc]
  exact applyMirror_filter_self u a src (key e) (flds e) st hInv

theorem applyEv_filter_frame (st : Store) (e : E) (k : String)
    (hids : IdsOk st) (h : cancel e = true ∨ ¬ key e = k) :
    (applyEv u a src cancel key flds st e).events.filter (keyMatch k a)
      = st.events.filter (keyMatch k a) := by
  rcases h with hc | hk
  · rw [applyEv_cancel u a src cancel key flds hc]
  · by_cases hc : cancel e
    · rw [applyEv_cancel u a src cancel key flds hc]
    · rw [applyEv_active u a src cancel key flds (eq_false_of_ne_true hc)]
      exact applyMirror_filter_other u a src (key e) (flds e) st hids k a
        (fun hpair => hk hpair.1.symm)

theorem applyEvAll_filter_frame (evs : List E) (st : Store) (k : String)
    (hInv : StoreInv st) (hks : ∀ e ∈ evs, cancel e = true ∨ ¬ key e = k) :
    (applyEvAll u a src cancel key flds evs st).events.filter (keyMatch k a)
      = st.events.filter (keyMatch k a) := by
  induction evs generalizing st with
  | nil => rfl
  | cons e rest ih =>
    rw [applyEvAll_cons]
    rw [ih _ (applyEv_storeInv u a src cancel key flds st e hInv)
      (fun x hx => hks x (List.mem_cons_of_mem e hx))]
    exact applyEv_filter_frame u a src cancel key flds st e k hInv.1
      (hks e (List.mem_cons_self e rest))

theorem applyEv_noop (st : Store) (e : E) (r : EventRow) (hids : IdsOk st)
    (hc : cancel e = false)
    (hfil : st.events.filter (keyMatch (key e) a) = [r])
    (hr : setFields (flds e) r = r) :
    applyEv u a src cancel key flds st e = st := by
  rw [applyEv_active u a src cancel key flds hc]
  exact applyMirror_noop u a src (key e) (flds e) st hids r hfil hr

theorem applyEvAll_idem (evs : List E) (st : Store) (hInv : StoreInv st)
    (hnd : ((evs.filter (fun e => !cancel e)).map key).Nodup) :
    applyEvAll u a src cancel key flds evs (applyEvAll u a src cancel key flds evs st)
      = applyEvAll u a src cancel key flds evs st := by
  induction evs generalizing st with
  | nil => rfl
  | cons e rest ih =>
    by_cases hc : cancel e
    · have hfe : rest.filter (fun x => !cancel x) = (e :: rest).filter (fun x => !cancel x) := by
        simp [List.filter, hc]
      rw [applyEvAll_cons, applyEvAll_cons, applyEv_cancel u a src cancel key flds hc,
        applyEv_cancel u a src cancel key flds hc]
      exact ih st hInv (hfe ▸ hnd)
    · have hc' : cancel e = false := eq_false_of_ne_true hc
      have hfe : (e :: rest).filter (fun x => !cancel x)
          = e :: rest.filter (fun x => !cancel x) := by
        simp [List.filter, hc']
      rw [hfe, List.map_cons, List.nodup_cons] at hnd
      have hks : ∀ x ∈ rest, cancel x = true ∨ ¬ key x = key e := by
        intro x hx
        by_cases hcx : cancel x
        · exact Or.inl hcx
        · refine Or.inr (fun hkx => hnd.1 ?_)
          rw [← hkx]
          exact List.mem_map_of_mem key (List.mem_filter.mpr ⟨hx, by simp [eq_false_of_ne_true hcx]⟩)
      have hInv1 : StoreInv (applyEv u a src cancel key flds st e) :=
        applyEv_storeInv u a src cancel key flds st e hInv
      obtain ⟨r', hfil, hrfix⟩ :=
        applyEv_filter_self u a src cancel key flds st e hInv hc'
      have hframe : (applyEvAll u a src cancel key flds rest
            (applyEv u a src cancel key flds st e)).events.filter (keyMatch (key e) a) = [r'] := by
        rw [applyEvAll_filter_frame u a src cancel key flds rest _ (key e) hInv1 hks]
        exact hfil
      have hInv2 : StoreInv (applyEvAll u a src cancel key flds rest
          (applyEv u a src cancel key flds st e)) :=
        applyEvAll_storeInv u a src cancel key flds rest _ hInv1
      have hnoop := applyEv_noop u a src cancel key flds
        (applyEvAll u a src cancel key flds rest (applyEv u a src cancel key flds st e))
        e r' hInv2.1 hc' hframe hrfix
      rw [applyEvAll_cons, applyEvAll_cons, hnoop]
      exact ih _ hInv1 hnd.2

end LoopLemmas

/-! ## Instantiation for the two providers -/

theorem googleApplyAll_eq (u a : Nat) (evs : List GEvent) (st : Store) :
    googleApplyAll u a evs st
      = applyEvAll u a "google" cancelledG GEvent.id googleFields evs st := rfl

theorem outlookApplyAll_eq (u a : Nat) (evs : List OEvent) (st : Store) :
    outlookApplyAll u a evs st
      = applyEvAll u a "outlook" OEvent.isCancelled OEvent.id outlookFields evs st := rfl

theorem googleReconcile_fst (u a : Nat) (evs : List GEvent) (st : Store) :
    (googleReconcile u a evs st).1 = googleApplyAll u a evs st := by
  suffices h : ∀ (evs : List GEvent) (st : Store) (n : Nat),
      (evs.foldl (fun p e => if cancelledG e then p
          else (applyMirror u a "google" e.id (googleFields e) p.1, p.2 + 1)) (st, n)).1
        = googleApplyAll u a evs st by
    exact h evs st 0
  intro evs
  induction evs with
  | nil => intro st n; rfl
  | cons e rest ih =>
    intro st n
    by_cases hc : cancelledG e
    · simpa [List.foldl, hc, googleApplyAll, List.foldl, applyGoogle] using ih st n
    · simpa [List.foldl, hc, googleApplyAll, List.foldl, applyGoogle] using
        ih (applyMirror u a "google" e.id (googleFields e) st) (n + 1)

theorem outlookReconcile_fst (u a : Nat) (evs : List OEvent) (st : Store) :
    (outlookReconcile u a evs st).1 = outlookApplyAll u a evs st := by
  suffices h : ∀ (evs : List OEvent) (st : Store) (n : Nat),
      (evs.foldl (fun p e => if e.isCancelled then p
          else (applyMirror u a "outlook" e.id (outlookFields e) p.1, p.2 + 1)) (st, n)).1
        = outlookApplyAll u a evs st by
    exact h evs st 0
  intro evs
  induction evs with
  | nil => intro st n; rfl
  | cons e rest ih =>
    intro st n
    by_cases hc : e.isCancelled
    · simpa [List.foldl, hc, outlookApplyAll, List.foldl, applyOutlook] using ih st n
    · simpa [List.foldl, hc, outlookApplyAll, List.foldl, applyOutlook] using
        ih (applyMirror u a "outlook" e.id (outlookFields e) st) (n + 1)

theorem googleReconcile_snd (u a : Nat) (evs : List GEvent) (st : Store) :
    (googleReconcile u a evs st).2 = (evs.filter (fun e => !cancelledG e)).length := by
  suffices h : ∀ (evs : List GEvent) (st : Store) (n : Nat),
      (evs.foldl (fun p e => if cancelledG e then p
          else (applyMirror u a "google" e.id (googleFields e) p.1, p.2 + 1)) (st, n)).2
        = n + (evs.filter (fun e => !cancelledG e)).length by
    simpa using h evs st 0
  intro evs
  induction evs with
  | nil => intro st n; simp
  | cons e rest ih =>
    intro st n
    by_cases hc : cancelledG e
    · have hq : (e :: rest).filter (fun x => !cancelledG x)
          = rest.filter (fun x => !cancelledG x) := by
        simp [List.filter, hc]
      simp only [List.foldl_cons, hc, if_true, hq]
      exact ih st n
    · have hc' : cancelledG e = false := eq_false_of_ne_true hc
      have hq : (e :: rest).filter (fun x => !cancelledG x)
          = e :: rest.filter (fun x => !cancelledG x) := by
        simp [List.filter, hc']
      simp only [List.foldl_cons, hc', hq, List.length_cons]
      rw [if_neg (by simp : ¬ (false = true))]
      rw [ih _ (n + 1)]
      omega

theorem outlookReconcile_snd (u a : Nat) (evs : List OEvent) (st : Store) :
    (outlookReconcile u a evs st).2 = (evs.filter (fun e => !e.isCancelled)).length := by
  suffices h : ∀ (evs : List OEvent) (st : Store) (n : Nat),
      (evs.foldl (fun p e => if e.isCancelled then p
          else (applyMirror u a "outlook" e.id (outlookFields e) p.1, p.2 + 1)) (st, n)).2
        = n + (evs.filter (fun e => !e.isCancelled)).length by
    simpa using h evs st 0
  intro evs
  induction evs with
  | nil => intro st n; simp
  | cons e rest ih =>
    intro st n
    by_cases hc : e.isCancelled
    · have hq : (e :: rest).filter (fun x => !x.isCancelled)
          = rest.filter (fun x => !x.isCancelled) := by
        simp [List.filter, hc]
      simp only [List.foldl_cons, hc, if_true, hq]
      exact ih st n
    · have hc' : e.isCancelled = false := eq_false_of_ne_true hc
      have hq : (e :: rest).filter (fun x => !x.isCancelled)
          = e :: rest.filter (fun x => !x.isCancelled) := by
        simp [List.filter, hc']
      simp only [List.foldl_cons, hc', hq, List.length_cons]
      rw [if_neg (by simp : ¬ (false = true))]
      rw [ih _ (n + 1)]
      omega

/-! ## Concrete data used by witnesses -/

/-- The empty mirror store. -/
def emptyStore : Store := { events := [], nextId := 1 }

theorem storeInv_emptyStore : StoreInv emptyStore := by
  refine ⟨⟨by simp [emptyStore], by simp [emptyStore]⟩, ?_⟩
  intro k a
  simp [countKey, emptyStore]

/-- A concrete timed Google event. -/
def gW : GEvent :=
  { id := "abc123"
    status := some "confirmed"
    summary := some "Standup"
    description := none
    startDateTime := some "2024-01-10T09:00:00Z"
    startDate := none
    endDateTime := some "2024-01-10T09:30:00Z"
    endDate := none }

/-- The same remote event with a changed title. -/
def gW2 : GEvent := { gW with summary := some "Standup v2" }

/-- A cancelled Google event. -/
def gCancelled : GEvent := { gW with id := "c1", status := some "cancelled" }

/-- A date-only Google event without an end component. -/
def gDateOnly : GEvent :=
  { id := "d1"
    status := none
    summary := some "Holiday"
    description := none
    startDateTime := none
    startDate := some "2024-02-01"
    endDateTime := none
    endDate := none }

/-- A cancelled Outlook event. -/
def oCancelled : OEvent :=
  { id := "oc"
    isCancelled := true
    subject := none
    bodyPreview := none
    startDateTime := "2024-03-01T10:00:00.0000000"
    startTimeZone := "UTC"
    endDateTime := "2024-03-01T11:00:00.0000000"
    endTimeZone := "UTC"
    isAllDay := false }

/-- An Outlook all-day event: Graph still supplies a (midnight) timed
start for it. -/
def oAllDay : OEvent :=
  { id := "xyz"
    isCancelled := false
    subject := some "Offsite"
    bodyPreview := none
    startDateTime := "2024-01-10T00:00:00.0000000"
    startTimeZone := "UTC"
    endDateTime := "2024-01-11T00:00:00.0000000"
    endTimeZone := "UTC"
    isAllDay := true }

theorem jsTruthy_none : jsTruthy none = false := rfl

/-! ## Claim theorems -/

/-- C1: after a reconcile pass, every non-cancelled remote event of the
listing has exactly one mirror row under its (external id, account id)
key — for both providers — and a later pass containing the same external
id (with changed fields) rewrites that same row in place via the update
branch and keeps the key count at one. -/
theorem reconcile_upsert_unique (u a : Nat) (st : Store) (hInv : StoreInv st) :
    (∀ (evs : List GEvent) (e : GEvent), e ∈ evs → cancelledG e = false →
        countKey (googleReconcile u a evs st).1 e.id a = 1) ∧
    (∀ (evs : List OEvent) (e : OEvent), e ∈ evs → e.isCancelled = false →
        countKey (outlookReconcile u a evs st).1 e.id a = 1) ∧
    (∀ (evs : List GEvent) (e : GEvent), e ∈ evs → cancelledG e = false →
      ∀ e₂ : GEvent, cancelledG e₂ = false → e₂.id = e.id →
        ∃ r, findMirror (googleReconcile u a evs st).1 e.id a = some r ∧
          (googleReconcile u a [e₂] (googleReconcile u a evs st).1).1.events
            = (googleReconcile u a evs st).1.events.map
                (fun x => if x.id = r.id then setFields (googleFields e₂) x else x) ∧
          countKey (googleReconcile u a [e₂] (googleReconcile u a evs st).1).1 e.id a = 1) := by
  refine ⟨?_, ?_, ?_⟩
  · intro evs e he hc
    rw [googleReconcile_fst, googleApplyAll_eq]
    exact applyEvAll_countKey_eq_one u a "google" cancelledG GEvent.id googleFields evs st e hInv he hc
  · intro evs e he hc
    rw [outlookReconcile_fst, outlookApplyAll_eq]
    exact applyEvAll_countKey_eq_one u a "outlook" OEvent.isCancelled OEvent.id outlookFields
      evs st e hInv he hc
  · intro evs e he hc e₂ hc₂ hid
    have hc1 : countKey (googleReconcile u a evs st).1 e.id a = 1 := by
      rw [googleReconcile_fst, googleApplyAll_eq]
      exact applyEvAll_countKey_eq_one u a "google" cancelledG GEvent.id googleFields evs st e hInv he hc
    have hsome : ((googleReconcile u a evs st).1.events.find? (keyMatch e.id a)).isSome := by
      rw [List.find?_isSome]
      have hpos : 0 < countKey (googleReconcile u a evs st).1 e.id a := by omega
      rw [countKey, List.countP_pos_iff] at hpos
      exact hpos
    obtain ⟨r, hr⟩ := Option.isSome_iff_exists.mp hsome
    refine ⟨r, hr, ?_, ?_⟩
    · have hstep : (googleReconcile u a [e₂] (googleReconcile u a evs st).1).1
          = applyMirror u a "google" e₂.id (googleFields e₂) (googleReconcile u a evs st).1 := by
        rw [googleReconcile_fst]
        show applyGoogle u a (googleReconcile u a evs st).1 e₂ = _
        simp [applyGoogle, hc₂]
      rw [hstep]
      have hfind₂ : (googleReconcile u a evs st).1.events.find? (keyMatch e₂.id a) = some r := by
        rw [hid]; exact hr
      rw [applyMirror_find_some hfind₂]
    · have hstep : (googleReconcile u a [e₂] (googleReconcile u a evs st).1).1
          = applyMirror u a "google" e₂.id (googleFields e₂) (googleReconcile u a evs st).1 := by
        rw [googleReconcile_fst]
        show applyGoogle u a (googleReconcile u a evs st).1 e₂ = _
        simp [applyGoogle, hc₂]
      rw [hstep, ← hid, applyMirror_countKey_self, hid]
      rw [hc1]
      simp

/-- C1 witness: a fresh Google event is mirrored exactly once from the
empty store, and a second pass with the retitled event updates the same
row without inserting a second one. -/
theorem reconcile_upsert_unique_witness :
    countKey (googleReconcile 1 5 [gW] emptyStore).1 "abc123" 5 = 1 ∧
    countKey (googleReconcile 1 5 [gW2] (googleReconcile 1 5 [gW] emptyStore).1).1 "abc123" 5 = 1 := by
  have h := reconcile_upsert_unique 1 5 emptyStore storeInv_emptyStore
  constructor
  · exact h.1 [gW] gW (by simp) (by decide)
  · obtain ⟨r, _, _, hcnt⟩ := h.2.2 [gW] gW (by simp) (by decide) gW2 (by decide) (by decide)
    exact hcnt

/-- C2: re-running a reconcile pass with the same listing (whose
non-cancelled external ids are distinct) leaves the mirror store exactly
as the first pass left it — same rows, same fields. -/
theorem reconcile_idempotent (u a : Nat) (st : Store) (hInv : StoreInv st) :
    (∀ evs : List GEvent, ((evs.filter (fun e => !cancelledG e)).map GEvent.id).Nodup →
        (googleReconcile u a evs (googleReconcile u a evs st).1).1
          = (googleReconcile u a evs st).1) ∧
    (∀ evs : List OEvent, ((evs.filter (fun e => !e.isCancelled)).map OEvent.id).Nodup →
        (outlookReconcile u a evs (outlookReconcile u a evs st).1).1
          = (outlookReconcile u a evs st).1) := by
  constructor
  · intro evs hnd
    rw [googleReconcile_fst, googleReconcile_fst, googleApplyAll_eq, googleApplyAll_eq]
    exact applyEvAll_idem u a "google" cancelledG GEvent.id googleFields evs st hInv hnd
  · intro evs hnd
    rw [outlookReconcile_fst, outlookReconcile_fst, outlookApplyAll_eq, outlookApplyAll_eq]
    exact applyEvAll_idem u a "outlook" OEvent.isCancelled OEvent.id outlookFields evs st hInv hnd

/-- C2 witness: the second identical pass over a one-event listing
changes nothing. -/
theorem reconcile_idempotent_witness :
    (googleReconcile 1 5 [gW] (googleReconcile 1 5 [gW] emptyStore).1).1
      = (googleReconcile 1 5 [gW] emptyStore).1 :=
  (reconcile_idempotent 1 5 emptyStore storeInv_emptyStore).1 [gW] (by decide)

/-- C10: the synced count a reconcile pass reports is exactly the number
of non-cancelled events in the listing, for both providers. -/
theorem reconcile_synced_count (u a : Nat) (st : Store) :
    (∀ evs : List GEvent,
        (googleReconcile u a evs st).2 = (evs.filter (fun e => !cancelledG e)).length) ∧
    (∀ evs : List OEvent,
        (outlookReconcile u a evs st).2 = (evs.filter (fun e => !e.isCancelled)).length) :=
  ⟨fun evs => googleReconcile_snd u a evs st, fun evs => outlookReconcile_snd u a evs st⟩

/-- Skipping cancelled events is dropping them from the listing: a fold
that ignores elements with the cancel flag equals the fold over the
filtered listing. -/
theorem foldl_skip_filter {α E : Type} (cancel : E → Bool) (g : α → E → α)
    (evs : List E) (init : α) :
    evs.foldl (fun p e => if cancel e then p else g p e) init
      = (evs.filter (fun e => !cancel e)).foldl (fun p e => if cancel e then p else g p e) init := by
  induction evs generalizing init with
  | nil => rfl
  | cons e rest ih =>
    by_cases hc : cancel e
    · simp [List.foldl_cons, List.filter, hc, ih]
    · have hc' : cancel e = false := eq_false_of_ne_true hc
      simp only [List.foldl_cons, List.filter, hc', Bool.not_false, if_neg (by simp : ¬ (false = true))]
      exact ih (g init e)

/-- C6: a remote event whose cancelled indicator is set causes no
mutation at all: the per-event step is the identity, and a whole pass
behaves exactly as if cancelled events were absent from the listing —
so they are never inserted and never update or delete an existing row. -/
theorem cancelled_skip (u a : Nat) :
    (∀ (st : Store) (e : GEvent), cancelledG e = true → applyGoogle u a st e = st) ∧
    (∀ (st : Store) (e : OEvent), e.isCancelled = true → applyOutlook u a st e = st) ∧
    (∀ (st : Store) (evs : List GEvent),
        googleReconcile u a evs st
          = googleReconcile u a (evs.filter (fun e => !cancelledG e)) st) ∧
    (∀ (st : Store) (evs : List OEvent),
        outlookReconcile u a evs st
          = outlookReconcile u a (evs.filter (fun e => !e.isCancelled)) st) := by
  refine ⟨?_, ?_, ?_, ?_⟩
  · intro st e hc
    simp [applyGoogle, hc]
  · intro st e hc
    simp [applyOutlook, hc]
  · intro st evs
    exact foldl_skip_filter cancelledG
      (fun p e => (applyMirror u a "google" e.id (googleFields e) p.1, p.2 + 1)) evs (st, 0)
  · intro st evs
    exact foldl_skip_filter OEvent.isCancelled
      (fun p e => (applyMirror u a "outlook" e.id (outlookFields e) p.1, p.2 + 1)) evs (st, 0)

/-- C6 witness: the concrete cancelled events leave a one-row store
untouched. -/
theorem cancelled_skip_witness :
    applyGoogle 1 5 (googleReconcile 1 5 [gW] emptyStore).1 gCancelled
        = (googleReconcile 1 5 [gW] emptyStore).1 ∧
    applyOutlook 1 5 (googleReconcile 1 5 [gW] emptyStore).1 oCancelled
        = (googleReconcile 1 5 [gW] emptyStore).1 := by
  have h := cancelled_skip 1 5
  exact ⟨h.1 _ gCancelled (by decide), h.2.1 _ oCancelled (by decide)⟩

/-- C5 counterexample: the Outlook derivation takes `allDay` from the
event's own `isAllDay` flag, so an all-day Outlook event whose Graph
record carries a (midnight) timed start is mirrored with
`all_day = true` even though a timed start is present — refuting
"allDay = true iff the event had no timed start" over all processed
events. -/
theorem allday_derivation_cex :
    (outlookFields oAllDay).allDay = true ∧
    ¬ oAllDay.startDateTime = "" ∧
    (outlookReconcile 1 5 [oAllDay] emptyStore).1.events.map EventRow.all_day = [true] := by
  refine ⟨rfl, by decide, rfl⟩

/-- C5 amended: the "allDay iff no timed start" derivation (and the
"date-only start with no end gives allDay with end = start" consequence)
holds for the Google loop, whose listing records can lack a timed start;
the Outlook loop instead copies the provider's `isAllDay` indicator and
always stores the provider's timed start/end strings. -/
theorem allday_derivation (e : GEvent) (o : OEvent) :
    ((googleFields e).allDay = true ↔ jsTruthy e.startDateTime = false) ∧
    (jsTruthy e.startDateTime = true → (googleFields e).start = e.startDateTime) ∧
    (jsTruthy e.startDateTime = false → jsTruthy e.startDate = true →
        (googleFields e).start = e.startDate) ∧
    (jsTruthy e.startDateTime = false → jsTruthy e.startDate = true →
        jsTruthy e.endDateTime = false → jsTruthy e.endDate = false →
        (googleFields e).allDay = true ∧ (googleFields e).start = e.startDate ∧
          (googleFields e).stop = (googleFields e).start) ∧
    (outlookFields o).allDay = o.isAllDay := by
  refine ⟨?_, ?_, ?_, ?_, rfl⟩
  · simp [googleFields]
  · intro h
    simp [googleFields, jsOrOpt, h]
  · intro h1 h2
    simp [googleFields, jsOrOpt, h1, h2]
  · intro h1 h2 h3 h4
    refine ⟨by simp [googleFields, h1], by simp [googleFields, jsOrOpt, h1, h2], ?_⟩
    have hse : jsOrOpt e.endDateTime e.endDate = none := by
      simp [jsOrOpt, h3, h4]
    have hss : jsOrOpt e.startDateTime e.startDate = e.startDate := by
      simp [jsOrOpt, h1, h2]
    show jsOrOpt (jsOrOpt e.endDateTime e.endDate) (jsOrOpt e.startDateTime e.startDate)
      = jsOrOpt e.startDateTime e.startDate
    rw [hse, hss]
    simp [jsOrOpt, jsTruthy_none, h2]

/-- C5 amended witness: the date-only no-end Google event yields an
all-day derivation with end equal to start; the Outlook event keeps its
own flag. -/
theorem allday_derivation_witness :
    (googleFields gDateOnly).allDay = true ∧
    (googleFields gDateOnly).start = some "2024-02-01" ∧
    (googleFields gDateOnly).stop = (googleFields gDateOnly).start ∧
    (outlookFields oAllDay).allDay = true := by
  have h := allday_derivation gDateOnly oAllDay
  obtain ⟨hall, hstart, hstop⟩ := h.2.2.2.1 (by decide) (by decide) (by decide) (by decide)
  exact ⟨hall, by rw [hstart]; rfl, hstop, h.2.2.2.2⟩

/-- A non-expired Google account used by route witnesses. -/
def accFresh : CalAccount :=
  { id := 9
    user_id := 1
    provider := "google"
    email := "person@example.com"
    accessToken := "tok"
    refreshToken := none
    tokenExpiresAt := none
    enabled := true
    lastSyncedAt := none }

/-- C3: a single-account sync pass writes the account's last-synced
instant iff the listing call succeeded.  On a listing error (for any
refresh outcome) and on a refresh error, the mirror store and the
last-synced instant are untouched; on a successful listing the store is
the reconciled store and last-synced is set to the completion instant,
also when the listing is empty. -/
theorem sync_route_last_synced (u now : Nat) (acc : CalAccount) (st : Store) :
    (∀ (rr : Except String GoogleCreds) (msg : String),
        (googleSyncRoute true rr (.error msg) now u acc st).store = st ∧
        (googleSyncRoute true rr (.error msg) now u acc st).account.lastSyncedAt
          = acc.lastSyncedAt) ∧
    (∀ (msg : String) (listing : Except String (List GEvent)), isExpired acc now = true →
        (googleSyncRoute true (.error msg) listing now u acc st).store = st ∧
        (googleSyncRoute true (.error msg) listing now u acc st).account = acc) ∧
    (∀ (rr : Except String GoogleCreds) (evs : List GEvent), isExpired acc now = false →
        (googleSyncRoute true rr (.ok evs) now u acc st).store
            = (googleReconcile u acc.id evs st).1 ∧
        (googleSyncRoute true rr (.ok evs) now u acc st).account.lastSyncedAt = some now ∧
        (googleSyncRoute true rr (.ok evs) now u acc st).result
            = .ok (googleReconcile u acc.id evs st).2) ∧
    (∀ (creds : GoogleCreds) (evs : List GEvent), isExpired acc now = true →
        (googleSyncRoute true (.ok creds) (.ok evs) now u acc st).store
            = (googleReconcile u acc.id evs st).1 ∧
        (googleSyncRoute true (.ok creds) (.ok evs) now u acc st).account.lastSyncedAt
            = some now ∧
        (googleSyncRoute true (.ok creds) (.ok evs) now u acc st).result
            = .ok (googleReconcile u acc.id evs st).2) ∧
    (∀ (rr : Except String MsTokenResponse) (msg : String),
        (outlookSyncRoute true rr (.error msg) now u acc st).store = st ∧
        (outlookSyncRoute true rr (.error msg) now u acc st).account.lastSyncedAt
          = acc.lastSyncedAt) ∧
    (∀ (msg : String) (listing : Except String (List OEvent)),
        (isExpired acc now && acc.refreshToken.isSome) = true →
        (outlookSyncRoute true (.error msg) listing now u acc st).store = st ∧
        (outlookSyncRoute true (.error msg) listing now u acc st).account = acc) ∧
    (∀ (rr : Except String MsTokenResponse) (evs : List OEvent),
        (isExpired acc now && acc.refreshToken.isSome) = false →
        (outlookSyncRoute true rr (.ok evs) now u acc st).store
            = (outlookReconcile u acc.id evs st).1 ∧
        (outlookSyncRoute true rr (.ok evs) now u acc st).account.lastSyncedAt = some now ∧
        (outlookSyncRoute true rr (.ok evs) now u acc st).result
            = .ok (outlookReconcile u acc.id evs st).2) ∧
    (∀ (tr : MsTokenResponse) (evs : List OEvent),
        (isExpired acc now && acc.refreshToken.isSome) = true →
        (outlookSyncRoute true (.ok tr) (.ok evs) now u acc st).store
            = (outlookReconcile u acc.id evs st).1 ∧
        (outlookSyncRoute true (.ok tr) (.ok evs) now u acc st).account.lastSyncedAt
            = some now ∧
        (outlookSyncRoute true (.ok tr) (.ok evs) now u acc st).result
            = .ok (outlookReconcile u acc.id evs st).2) := by
  refine ⟨?_, ?_, ?_, ?_, ?_, ?_, ?_, ?_⟩
  · intro rr msg
    by_cases hexp : isExpired acc now
    · cases rr with
      | error m => simp [googleSyncRoute, googleListPhase, hexp]
      | ok creds => simp [googleSyncRoute, googleListPhase, hexp]
    · simp [googleSyncRoute, googleListPhase, eq_false_of_ne_true hexp]
  · intro msg listing hexp
    simp [googleSyncRoute, hexp]
  · intro rr evs hexp
    simp [googleSyncRoute, googleListPhase, hexp]
  · intro creds evs hexp
    simp [googleSyncRoute, googleListPhase, hexp]
  · intro rr msg
    by_cases hexp : (isExpired acc now && acc.refreshToken.isSome) = true
    · cases rr with
      | error m => simp [outlookSyncRoute, outlookListPhase, hexp]
      | ok tr => simp [outlookSyncRoute, outlookListPhase, hexp]
    · simp [outlookSyncRoute, outlookListPhase, eq_false_of_ne_true hexp]
  · intro msg listing hexp
    simp [outlookSyncRoute, hexp]
  · intro rr evs hexp
    simp [outlookSyncRoute, outlookListPhase, hexp]
  · intro tr evs hexp
    simp [outlookSyncRoute, outlookListPhase, hexp]

/-- C3 witness: at a concrete non-expired account, a listing error
leaves store and last-synced alone, and a successful listing sets
last-synced to the completion instant. -/
theorem sync_route_last_synced_witness :
    (googleSyncRoute true (.ok ⟨"t2", none⟩) (.error "network down") 100 1 accFresh emptyStore).store
        = emptyStore ∧
    (googleSyncRoute true (.ok ⟨"t2", none⟩) (.error "network down") 100 1 accFresh emptyStore).account.lastSyncedAt
        = none ∧
    (googleSyncRoute true (.ok ⟨"t2", none⟩) (.ok [gW]) 100 1 accFresh emptyStore).account.lastSyncedAt
        = some 100 := by
  have h := sync_route_last_synced 1 100 accFresh emptyStore
  refine ⟨(h.1 _ "network down").1, (h.1 _ "network down").2, ?_⟩
  exact (h.2.2.1 (.ok ⟨"t2", none⟩) [gW] (by decide)).2.1

/-- An enabled Google account whose credentials expired at instant 50. -/
def accExpired : CalAccount :=
  { id := 3
    user_id := 1
    provider := "google"
    email := "expired@example.com"
    accessToken := "tok"
    refreshToken := some "refr"
    tokenExpiresAt := some 50
    enabled := true
    lastSyncedAt := none }

theorem syncAllStepPerUser_calls (gConf mConf : Bool)
    (fetchG : CalAccount → Except String (List GEvent))
    (fetchO : CalAccount → Except String (List OEvent))
    (u now : Nat) (b : BatchState) (acc : CalAccount) :
    ∀ c ∈ (syncAllStepPerUser gConf mConf fetchG fetchO u now b acc).calls,
      c ∈ b.calls ∨ c = ExtCall.listGoogle ∨ c = ExtCall.listOutlook := by
  intro c hc
  by_cases hg : acc.provider = "google"
  · by_cases hgc : gConf
    · cases hf : fetchG acc with
      | error m =>
        simp only [syncAllStepPerUser, hg, if_true, hgc, Bool.not_true, hf] at hc
        simp only [if_neg (by simp : ¬ (false = true))] at hc
        rcases List.mem_append.mp hc with h | h
        · exact Or.inl h
        · simp only [List.mem_singleton] at h
          exact Or.inr (Or.inl h)
      | ok evs =>
        simp only [syncAllStepPerUser, hg, if_true, hgc, Bool.not_true, hf] at hc
        simp only [if_neg (by simp : ¬ (false = true))] at hc
        rcases List.mem_append.mp hc with h | h
        · exact Or.inl h
        · simp only [List.mem_singleton] at h
          exact Or.inr (Or.inl h)
    · have hgc' : gConf = false := eq_false_of_ne_true hgc
      simp only [syncAllStepPerUser, hg, if_true, hgc', Bool.not_false, if_pos rfl] at hc
      exact Or.inl hc
  · by_cases ho : acc.provider = "outlook"
    · by_cases hmc : mConf
      · cases hf : fetchO acc with
        | error m =>
          simp only [syncAllStepPerUser, hg, if_false, ho, if_true, hmc, Bool.not_true, hf] at hc
          simp only [if_neg (by simp : ¬ (false = true))] at hc
          rcases List.mem_append.mp hc with h | h
          · exact Or.inl h
          · simp only [List.mem_singleton] at h
            exact Or.inr (Or.inr h)
        | ok evs =>
          simp only [syncAllStepPerUser, hg, if_false, ho, if_true, hmc, Bool.not_true, hf] at hc
          simp only [if_neg (by simp : ¬ (false = true))] at hc
          rcases List.mem_append.mp hc with h | h
          · exact Or.inl h
          · simp only [List.mem_singleton] at h
            exact Or.inr (Or.inr h)
      · have hmc' : mConf = false := eq_false_of_ne_true hmc
        simp only [syncAllStepPerUser, hg, if_false, ho, if_true, hmc', Bool.not_false, if_pos rfl] at hc
        exact Or.inl hc
    · simp only [syncAllStepPerUser, hg, if_false, ho] at hc
      exact Or.inl hc

theorem syncAllFold_calls (gConf mConf : Bool)
    (fetchG : CalAccount → Except String (List GEvent))
    (fetchO : CalAccount → Except String (List OEvent))
    (u now : Nat) (l : List CalAccount) (b : BatchState) :
    ∀ c ∈ (l.foldl (syncAllStepPerUser gConf mConf fetchG fetchO u now) b).calls,
      c ∈ b.calls ∨ c = ExtCall.listGoogle ∨ c = ExtCall.listOutlook := by
  induction l generalizing b with
  | nil => intro c hc; exact Or.inl hc
  | cons acc rest ih =>
    intro c hc
    rcases ih (syncAllStepPerUser gConf mConf fetchG fetchO u now b acc) c hc with h | h
    · exact syncAllStepPerUser_calls gConf mConf fetchG fetchO u now b acc c h
    · exact Or.inr h

theorem syncAllStepDeployment_calls (gConf mConf : Bool)
    (fetchG : CalAccount → Except String (List GEvent))
    (fetchO : CalAccount → Except String (List OEvent))
    (u now : Nat) (b : BatchState) (acc : CalAccount) :
    ∀ c ∈ (syncAllStepDeployment gConf mConf fetchG fetchO u now b acc).calls,
      c ∈ b.calls ∨ c = ExtCall.listGoogle ∨ c = ExtCall.listOutlook := by
  intro c hc
  by_cases hg : (acc.provider = "google" && gConf) = true
  · cases hf : fetchG acc with
    | error m =>
      simp only [syncAllStepDeployment, hg, if_true, hf] at hc
      rcases List.mem_append.mp hc with h | h
      · exact Or.inl h
      · simp only [List.mem_singleton] at h
        exact Or.inr (Or.inl h)
    | ok evs =>
      simp only [syncAllStepDeployment, hg, if_true, hf] at hc
      rcases List.mem_append.mp hc with h | h
      · exact Or.inl h
      · simp only [List.mem_singleton] at h
        exact Or.inr (Or.inl h)
  · by_cases ho : (acc.provider = "outlook" && mConf) = true
    · cases hf : fetchO acc with
      | error m =>
        simp only [syncAllStepDeployment, eq_false_of_ne_true hg, ho, if_true, hf] at hc
        simp only [if_neg (by simp : ¬ (false = true))] at hc
        rcases List.mem_append.mp hc with h | h
        · exact Or.inl h
        · simp only [List.mem_singleton] at h
          exact Or.inr (Or.inr h)
      | ok evs =>
        simp only [syncAllStepDeployment, eq_false_of_ne_true hg, ho, if_true, hf] at hc
        simp only [if_neg (by simp : ¬ (false = true))] at hc
        rcases List.mem_append.mp hc with h | h
        · exact Or.inl h
        · simp only [List.mem_singleton] at h
          exact Or.inr (Or.inr h)
    · simp only [syncAllStepDeployment, eq_false_of_ne_true hg, eq_false_of_ne_true ho] at hc
      simp only [if_neg (by simp : ¬ (false = true))] at hc
      exact Or.inl hc

theorem syncAllFoldDeployment_calls (gConf mConf : Bool)
    (fetchG : CalAccount → Except String (List GEvent))
    (fetchO : CalAccount → Except String (List OEvent))
    (u now : Nat) (l : List CalAccount) (b : BatchState) :
    ∀ c ∈ (l.foldl (syncAllStepDeployment gConf mConf fetchG fetchO u now) b).calls,
      c ∈ b.calls ∨ c = ExtCall.listGoogle ∨ c = ExtCall.listOutlook := by
  induction l generalizing b with
  | nil => intro c hc; exact Or.inl hc
  | cons acc rest ih =>
    intro c hc
    rcases ih (syncAllStepDeployment gConf mConf fetchG fetchO u now b acc) c hc with h | h
    · exact syncAllStepDeployment_calls gConf mConf fetchG fetchO u now b acc c h
    · exact Or.inr h

/-- C7 counterexample: in sync-all, an enabled account whose credentials
expired (50 < 100) goes straight to the listing call — the call trace is
just the listing, with no refresh invocation before it. -/
theorem syncall_no_refresh_cex :
    isExpired accExpired 100 = true ∧
    (syncAllPerUser true true (fun _ => .ok []) (fun _ => .ok [])
        1 100 [accExpired] emptyStore).calls = [ExtCall.listGoogle] := by
  exact ⟨by decide, rfl⟩

/-- C7 amended: neither sync-all variant ever invokes the refresh
capability, for any accounts and outcomes; expiry-triggered refresh
exists only in the single-account sync routes, where the Outlook route
refreshes before listing when the stored expiry has passed and a refresh
token is present — a refresh failure yields the "Please reconnect"
response with no listing call, no store mutation and no retry, and a
successful refresh is followed by exactly one listing call. -/
theorem refresh_only_in_single_routes (u now : Nat) :
    (∀ (gConf mConf : Bool) fetchG fetchO (accounts : List CalAccount) (st : Store),
        ExtCall.refreshGoogle ∉ (syncAllPerUser gConf mConf fetchG fetchO u now accounts st).calls ∧
        ExtCall.refreshOutlook ∉ (syncAllPerUser gConf mConf fetchG fetchO u now accounts st).calls) ∧
    (∀ (gConf mConf : Bool) fetchG fetchO (accounts : List CalAccount) (st : Store),
        ExtCall.refreshGoogle ∉ (syncAllDeployment gConf mConf fetchG fetchO u now accounts st).calls ∧
        ExtCall.refreshOutlook ∉ (syncAllDeployment gConf mConf fetchG fetchO u now accounts st).calls) ∧
    (∀ (acc : CalAccount) (st : Store) (msg : String) (listing : Except String (List OEvent)),
        (isExpired acc now && acc.refreshToken.isSome) = true →
        outlookSyncRoute true (.error msg) listing now u acc st
          = { store := st, account := acc
              result := .error "Please reconnect your Outlook account"
              calls := [ExtCall.refreshOutlook] }) ∧
    (∀ (acc : CalAccount) (st : Store) (tr : MsTokenResponse)
        (listing : Except String (List OEvent)),
        (isExpired acc now && acc.refreshToken.isSome) = true →
        (outlookSyncRoute true (.ok tr) listing now u acc st).calls
          = [ExtCall.refreshOutlook, ExtCall.listOutlook]) := by
  refine ⟨?_, ?_, ?_, ?_⟩
  · intro gConf mConf fetchG fetchO accounts st
    constructor
    · intro hmem
      rcases syncAllFold_calls gConf mConf fetchG fetchO u now
          (accounts.filter (·.enabled)) _ _ hmem with h | h | h
      · simp at h
      · exact absurd h (by simp)
      · exact absurd h (by simp)
    · intro hmem
      rcases syncAllFold_calls gConf mConf fetchG fetchO u now
          (accounts.filter (·.enabled)) _ _ hmem with h | h | h
      · simp at h
      · exact absurd h (by simp)
      · exact absurd h (by simp)
  · intro gConf mConf fetchG fetchO accounts st
    constructor
    · intro hmem
      rcases syncAllFoldDeployment_calls gConf mConf fetchG fetchO u now
          (accounts.filter (·.enabled)) _ _ hmem with h | h | h
      · simp at h
      · exact absurd h (by simp)
      · exact absurd h (by simp)
    · intro hmem
      rcases syncAllFoldDeployment_calls gConf mConf fetchG fetchO u now
          (accounts.filter (·.enabled)) _ _ hmem with h | h | h
      · simp at h
      · exact absurd h (by simp)
      · exact absurd h (by simp)
  · intro acc st msg listing hexp
    simp [outlookSyncRoute, hexp]
  · intro acc st tr listing hexp
    cases listing with
    | error m => simp [outlookSyncRoute, outlookListPhase, hexp]
    | ok evs => simp [outlookSyncRoute, outlookListPhase, hexp]

/-- C7 amended witness: the expired-account batch makes no refresh call,
and an expired single-account Outlook sync with a failing refresh
returns the reconnect error with only the refresh call made. -/
theorem refresh_only_in_single_routes_witness :
    ExtCall.refreshGoogle ∉ (syncAllPerUser true true (fun _ => .ok []) (fun _ => .ok [])
        1 100 [accExpired] emptyStore).calls ∧
    outlookSyncRoute true (.error "denied") (.ok []) 100 1
        { accExpired with provider := "outlook" } emptyStore
      = { store := emptyStore, account := { accExpired with provider := "outlook" }
          result := .error "Please reconnect your Outlook account"
          calls := [ExtCall.refreshOutlook] } := by
  have h := refresh_only_in_single_routes 1 100
  refine ⟨(h.1 true true _ _ [accExpired] emptyStore).1, ?_⟩
  exact h.2.2.1 { accExpired with provider := "outlook" } emptyStore "denied" (.ok []) (by decide)

/-- An enabled Outlook account used when the provider is unconfigured. -/
def accNoConf : CalAccount :=
  { id := 7
    user_id := 1
    provider := "outlook"
    email := "o@example.com"
    accessToken := "tok"
    refreshToken := none
    tokenExpiresAt := none
    enabled := true
    lastSyncedAt := none }

/-- Spec-side description of the one outcome entry per enabled account
in the per-user-config sync-all, for the refinement statement below: a
"not configured" error when the provider client is unavailable, the
thrown message when the listing call fails, and the count of
non-cancelled listed events on success. -/
def expectedOutcome (gConf mConf : Bool)
    (fetchG : CalAccount → Except String (List GEvent))
    (fetchO : CalAccount → Except String (List OEvent))
    (acc : CalAccount) : SyncResultEntry :=
  if acc.provider = "google" then
    if !gConf then ⟨"google", acc.email, .error "OAuth not configured"⟩
    else
      match fetchG acc with
      | .error msg => ⟨"google", acc.email, .error msg⟩
      | .ok evs => ⟨"google", acc.email, .ok (evs.filter (fun e => !cancelledG e)).length⟩
  else
    if !mConf then ⟨"outlook", acc.email, .error "OAuth not configured"⟩
    else
      match fetchO acc with
      | .error msg => ⟨"outlook", acc.email, .error msg⟩
      | .ok evs => ⟨"outlook", acc.email, .ok (evs.filter (fun e => !e.isCancelled)).length⟩

theorem syncAllStepPerUser_results (gConf mConf : Bool)
    (fetchG : CalAccount → Except String (List GEvent))
    (fetchO : CalAccount → Except String (List OEvent))
    (u now : Nat) (b : BatchState) (acc : CalAccount)
    (hprov : acc.provider = "google" ∨ acc.provider = "outlook") :
    (syncAllStepPerUser gConf mConf fetchG fetchO u now b acc).results
      = b.results ++ [expectedOutcome gConf mConf fetchG fetchO acc] := by
  rcases hprov with hg | ho
  · by_cases hgc : gConf
    · cases hf : fetchG acc with
      | error m => simp [syncAllStepPerUser, expectedOutcome, hg, hgc, hf]
      | ok evs => simp [syncAllStepPerUser, expectedOutcome, hg, hgc, hf, googleReconcile_snd]
    · simp [syncAllStepPerUser, expectedOutcome, hg, eq_false_of_ne_true hgc]
  · have hne : ¬ acc.provider = "google" := by rw [ho]; decide
    by_cases hmc : mConf
    · cases hf : fetchO acc with
      | error m => simp [syncAllStepPerUser, expectedOutcome, hne, ho, hmc, hf]
      | ok evs => simp [syncAllStepPerUser, expectedOutcome, hne, ho, hmc, hf, outlookReconcile_snd]
    · simp [syncAllStepPerUser, expectedOutcome, hne, ho, eq_false_of_ne_true hmc]

theorem syncAllPerUser_results_aux (gConf mConf : Bool)
    (fetchG : CalAccount → Except String (List GEvent))
    (fetchO : CalAccount → Except String (List OEvent))
    (u now : Nat) (l : List CalAccount) :
    ∀ b : BatchState,
      (∀ acc ∈ l, acc.provider = "google" ∨ acc.provider = "outlook") →
      (l.foldl (syncAllStepPerUser gConf mConf fetchG fetchO u now) b).results
        = b.results ++ l.map (expectedOutcome gConf mConf fetchG fetchO) := by
  induction l with
  | nil => intro b hprov; simp
  | cons acc rest ih =>
    intro b hprov
    rw [List.foldl_cons, List.map_cons,
      ih _ (fun x hx => hprov x (List.mem_cons_of_mem _ hx)),
      syncAllStepPerUser_results gConf mConf fetchG fetchO u now b acc
        (hprov acc (List.mem_cons_self _ _))]
    simp

/-- C4 counterexample: in the deployment-config sync-all, an enabled
Outlook account whose provider client is unconfigured is silently
skipped — the result list is empty although one enabled account exists,
refuting "exactly one outcome entry per enabled account". -/
theorem syncall_missing_entry_cex :
    (([accNoConf] : List CalAccount).filter (·.enabled)).length = 1 ∧
    (syncAllDeployment true false (fun _ => .ok []) (fun _ => .ok [])
        1 100 [accNoConf] emptyStore).results.length = 0 :=
  ⟨rfl, rfl⟩

/-- C4 amended: in the per-user-config sync-all, each enabled account
yields exactly one outcome entry, determined only by that account's own
configuration and provider-call outcome — synced count on success, the
thrown message on failure, "OAuth not configured" when the client for
the account's provider is unavailable — so one account's failure never
aborts the batch.  In the deployment-config variant, an enabled account
whose provider client is unconfigured is silently skipped and yields no
entry. -/
theorem syncall_per_user_one_entry_each (gConf mConf : Bool)
    (fetchG : CalAccount → Except String (List GEvent))
    (fetchO : CalAccount → Except String (List OEvent))
    (u now : Nat) (accounts : List CalAccount) (st : Store)
    (hprov : ∀ acc ∈ accounts, acc.provider = "google" ∨ acc.provider = "outlook") :
    (syncAllPerUser gConf mConf fetchG fetchO u now accounts st).results
      = (accounts.filter (·.enabled)).map (expectedOutcome gConf mConf fetchG fetchO) := by
  unfold syncAllPerUser
  rw [syncAllPerUser_results_aux gConf mConf fetchG fetchO u now (accounts.filter (·.enabled))
    _ (fun x hx => hprov x (List.mem_of_mem_filter hx))]
  rfl

/-- Three enabled accounts for the batch-isolation witness. -/
def accA : CalAccount :=
  { id := 1, user_id := 1, provider := "google", email := "a@example.com"
    accessToken := "t", refreshToken := none, tokenExpiresAt := none
    enabled := true, lastSyncedAt := none }

def accB : CalAccount :=
  { id := 2, user_id := 1, provider := "google", email := "b@example.com"
    accessToken := "t", refreshToken := none, tokenExpiresAt := none
    enabled := true, lastSyncedAt := none }

def accC : CalAccount :=
  { id := 3, user_id := 1, provider := "outlook", email := "c@example.com"
    accessToken := "t", refreshToken := none, tokenExpiresAt := none
    enabled := true, lastSyncedAt := none }

/-- C4 amended witness: with three enabled accounts where the second
account's provider call throws, the batch still returns one entry per
account — the real counts for accounts 1 and 3 and the error for
account 2. -/
theorem syncall_per_user_one_entry_each_witness :
    (syncAllPerUser true true
        (fun acc => if acc.id = 2 then .error "boom" else .ok [gW])
        (fun _ => .ok []) 1 100 [accA, accB, accC] emptyStore).results
      = [⟨"google", "a@example.com", .ok 1⟩,
         ⟨"google", "b@example.com", .error "boom"⟩,
         ⟨"outlook", "c@example.com", .ok 0⟩] := by
  rw [syncall_per_user_one_entry_each true true
      (fun acc => if acc.id = 2 then .error "boom" else .ok [gW])
      (fun _ => .ok []) 1 100 [accA, accB, accC] emptyStore
      (by intro acc hacc; fin_cases hacc <;> simp [accA, accB, accC])]
  rfl

/-- The row-level source invariant: a local row carries no external id
and no account reference; a mirrored row has a non-local source, an
external id, and an account whose provider its source names. -/
def SrcOk (provOf : Nat → String) (r : EventRow) : Prop :=
  (r.source = "local" ∧ r.external_id = none ∧ r.calendar_account_id = none) ∨
  (¬ r.source = "local" ∧ r.external_id.isSome = true ∧
    ∃ a, r.calendar_account_id = some a ∧ r.source = provOf a)

theorem srcOk_setFields (provOf : Nat → String) (f : MirrorFields) (r : EventRow) :
    SrcOk provOf (setFields f r) ↔ SrcOk provOf r := Iff.rfl

theorem applyMirror_srcOk (provOf : Nat → String) (u a : Nat) (src k : String)
    (f : MirrorFields) (st : Store) (hsrc : ¬ src = "local") (hpro : src = provOf a)
    (h : ∀ r ∈ st.events, SrcOk provOf r) :
    ∀ r ∈ (applyMirror u a src k f st).events, SrcOk provOf r := by
  intro r hr
  cases hf : st.events.find? (keyMatch k a) with
  | some row =>
    rw [applyMirror_find_some hf] at hr
    rcases List.mem_map.mp hr with ⟨x, hx, hxr⟩
    subst hxr
    by_cases hid : x.id = row.id
    · simp only [hid, if_pos rfl]
      exact (srcOk_setFields provOf f x).mpr (h x hx)
    · simp only [if_neg hid]
      exact h x hx
  | none =>
    rw [applyMirror_find_none hf] at hr
    rcases List.mem_append.mp hr with hr | hr
    · exact h r hr
    · simp only [List.mem_singleton] at hr
      subst hr
      exact Or.inr ⟨hsrc, rfl, a, rfl, hpro⟩

theorem applyEvAll_srcOk {E : Type} (provOf : Nat → String) (u a : Nat) (src : String)
    (cancel : E → Bool) (key : E → String) (flds : E → MirrorFields)
    (hsrc : ¬ src = "local") (hpro : src = provOf a) (evs : List E) (st : Store)
    (h : ∀ r ∈ st.events, SrcOk provOf r) :
    ∀ r ∈ (applyEvAll u a src cancel key flds evs st).events, SrcOk provOf r := by
  induction evs generalizing st with
  | nil => exact h
  | cons e rest ih =>
    rw [applyEvAll_cons]
    refine ih _ ?_
    by_cases hc : cancel e
    · rw [applyEv_cancel u a src cancel key flds hc]
      exact h
    · rw [applyEv_active u a src cancel key flds (eq_false_of_ne_true hc)]
      exact applyMirror_srcOk provOf u a src (key e) (flds e) st hsrc hpro h

/-- C9: every event-writing operation — the reconcile insert and update
of both providers, the task-mirror create/update/delete, and the local
event create and update — preserves the invariant that local rows carry
no external id and no account reference while mirrored rows carry a
non-local source naming their account's provider together with a
non-null external id and account reference. -/
theorem event_source_invariant (provOf : Nat → String) :
    (∀ (u a : Nat) (evs : List GEvent) (st : Store), provOf a = "google" →
        (∀ r ∈ st.events, SrcOk provOf r) →
        ∀ r ∈ (googleReconcile u a evs st).1.events, SrcOk provOf r) ∧
    (∀ (u a : Nat) (evs : List OEvent) (st : Store), provOf a = "outlook" →
        (∀ r ∈ st.events, SrcOk provOf r) →
        ∀ r ∈ (outlookReconcile u a evs st).1.events, SrcOk provOf r) ∧
    (∀ (t : TaskRow) (u : Nat) (st : TES),
        (∀ r ∈ st.events, SrcOk provOf r) →
        ∀ r ∈ (syncTaskEvent t u st).events, SrcOk provOf r) ∧
    (∀ (u : Nat) (proj : Option Nat) (title : String) (descr : Option String)
        (startT : String) (endT : Option String) (allDay : Bool) (st : Store),
        (∀ r ∈ st.events, SrcOk provOf r) →
        ∀ r ∈ (createLocalEvent u proj title descr startT endT allDay st).events, SrcOk provOf r) ∧
    (∀ (u eid : Nat) (title : Option String) (descr : Option (Option String))
        (proj : Option (Option Nat)) (startT : Option String) (endT : Option (Option String))
        (allDay : Option Bool) (st : Store),
        (∀ r ∈ st.events, SrcOk provOf r) →
        ∀ r ∈ (updateLocalEvent u eid title descr proj startT endT allDay st).events,
          SrcOk provOf r) := by
  refine ⟨?_, ?_, ?_, ?_, ?_⟩
  · intro u a evs st hpro h
    rw [googleReconcile_fst, googleApplyAll_eq]
    exact applyEvAll_srcOk provOf u a "google" cancelledG GEvent.id googleFields
      (by decide) hpro.symm evs st h
  · intro u a evs st hpro h
    rw [outlookReconcile_fst, outlookApplyAll_eq]
    exact applyEvAll_srcOk provOf u a "outlook" OEvent.isCancelled OEvent.id outlookFields
      (by decide) hpro.symm evs st h
  · intro t u st h r hr
    unfold syncTaskEvent at hr
    by_cases hdue : jsTruthy t.due_date
    · simp only [hdue, Bool.not_true, if_neg (by simp : ¬ (false = true))] at hr
      cases hev : t.event_id with
      | some eid =>
        simp only [hev] at hr
        rcases List.mem_map.mp hr with ⟨x, hx, hxr⟩
        subst hxr
        by_cases hid : x.id = eid
        · simp only [hid, if_pos rfl]
          exact h x hx
        · simp only [if_neg hid]
          exact h x hx
      | none =>
        simp only [hev] at hr
        rcases List.mem_append.mp hr with hr | hr
        · exact h r hr
        · simp only [List.mem_singleton] at hr
          subst hr
          exact Or.inl ⟨rfl, rfl, rfl⟩
    · simp only [eq_false_of_ne_true hdue, Bool.not_false, if_pos rfl] at hr
      cases hev : t.event_id with
      | some eid =>
        simp only [hev] at hr
        exact h r (List.mem_of_mem_filter hr)
      | none =>
        simp only [hev] at hr
        exact h r hr
  · intro u proj title descr startT endT allDay st h r hr
    rcases List.mem_append.mp hr with hr | hr
    · exact h r hr
    · simp only [List.mem_singleton] at hr
      subst hr
      exact Or.inl ⟨rfl, rfl, rfl⟩
  · intro u eid title descr proj startT endT allDay st h r hr
    rcases List.mem_map.mp hr with ⟨x, hx, hxr⟩
    subst hxr
    by_cases hid : x.id = eid ∧ x.user_id = u
    · simp only [if_pos hid]
      exact h x hx
    · simp only [if_neg hid]
      exact h x hx

/-- C9 witness: the concrete mirror row a first Google pass inserts
satisfies the invariant under the provider map sending account 5 to
google. -/
theorem event_source_invariant_witness :
    SrcOk (fun _ => "google") (mirrorRow 1 5 "google" "abc123" (googleFields gW) 1) := by
  have h := (event_source_invariant (fun _ => "google")).1 1 5 [gW] emptyStore rfl
    (by intro r hr; simp [emptyStore] at hr)
  exact h _ (by decide)

/-! ## Task linkage helpers for the round-trip claim -/

/-- Bounds invariant on the task/event tables: every stored id is below
its AUTOINCREMENT counter. -/
def TesInv (st : TES) : Prop :=
  (∀ t ∈ st.tasks, t.id < st.nextTaskId) ∧ (∀ r ∈ st.events, r.id < st.nextEventId)

/-- The task row `POST /` inserts for a titled task with only a due
date. -/
def mkDueTask (u : Nat) (T D : String) (tid : Nat) : TaskRow :=
  { id := tid, user_id := u, project_id := none, event_id := none,
    title := T, description := none, priority := "medium", status := "pending",
    due_date := some D }

/-- The linked local event `syncTaskEvent` inserts for such a task. -/
def mkDueEvent (u : Nat) (T D : String) (eid : Nat) : EventRow :=
  { id := eid, user_id := u, project_id := none,
    title := "Task Due: " ++ T,
    description := some ("Task \"" ++ T ++ "\" is due"),
    start_time := some D, end_time := none, all_day := true,
    source := "local", external_id := none, calendar_account_id := none }

theorem map_eq_self {α : Type} (l : List α) (g : α → α) (h : ∀ y ∈ l, g y = y) :
    l.map g = l :=
  Eq.trans (List.map_congr_left h) (List.map_id l)

theorem map_append_single {α : Type} (l : List α) (x : α) (g : α → α)
    (h : ∀ y ∈ l, g y = y) : (l ++ [x]).map g = l ++ [g x] := by
  rw [List.map_append, map_eq_self l g h]
  rfl

theorem find_append_single {α : Type} (l : List α) (x : α) (p : α → Bool)
    (h : ∀ y ∈ l, p y = false) (hp : p x = true) :
    (l ++ [x]).find? p = some x := by
  rw [List.find?_append]
  have hnone : l.find? p = none :=
    List.find?_eq_none.mpr (fun y hy => by simp [h y hy])
  rw [hnone]
  simp [List.find?_cons, hp]

theorem syncTaskEvent_insert (t : TaskRow) (u : Nat) (st : TES) (d : String)
    (hdue : t.due_date = some d) (hd : ¬ d = "") (hev : t.event_id = none) :
    syncTaskEvent t u st
      = { st with
          events := st.events ++
            [{ id := st.nextEventId
               user_id := u
               project_id := t.project_id
               title := "Task Due: " ++ t.title
               description := some (jsOrDefault t.description ("Task \"" ++ t.title ++ "\" is due"))
               start_time := some d
               end_time := none
               all_day := true
               source := "local"
               external_id := none
               calendar_account_id := none }]
          nextEventId := st.nextEventId + 1
          tasks := st.tasks.map (fun x =>
            if x.id = t.id then { x with event_id := some st.nextEventId } else x) } := by
  have htruthy : jsTruthy t.due_date = true := by rw [hdue]; simp [jsTruthy, hd]
  unfold syncTaskEvent
  rw [htruthy]
  simp only [Bool.not_true, if_neg (by simp : ¬ (false = true))]
  rw [hev, hdue]
  rfl

theorem syncTaskEvent_delete (t : TaskRow) (u : Nat) (st : TES) (eid : Nat)
    (hdue : jsTruthy t.due_date = false) (hev : t.event_id = some eid) :
    syncTaskEvent t u st
      = { st with
          events := st.events.filter (fun r => !(decide (r.id = eid)))
          tasks := st.tasks.map (fun x =>
            if x.id = t.id then { x with event_id := none } else x) } := by
  unfold syncTaskEvent
  rw [hdue, hev]
  simp

theorem createTask_eval (u : Nat) (T D : String) (s0 : TES) (hT : ¬T = "") (hD : ¬D = "") :
    createTask u T none none none none (some D) s0
      = (syncTaskEvent (mkDueTask u T D s0.nextTaskId) u
          { s0 with tasks := s0.tasks ++ [mkDueTask u T D s0.nextTaskId],
                    nextTaskId := s0.nextTaskId + 1 }, .ok s0.nextTaskId) := by
  have hDt : jsTruthy (some D) = true := by simp [jsTruthy, hD]
  have hDn : jsOrNull (some D) = some D := by simp [jsOrNull, hDt]
  unfold createTask
  rw [if_neg hT]
  rw [if_neg (show ¬ ((match (none : Option Nat) with
      | some p => !(s0.projects.contains (p, u))
      | none => false) = true) by simp)]
  rw [hDt]
  simp only [if_pos rfl, hDn]
  rfl

theorem updateTask_eval (u tid : Nat) (due : Option (Option String)) (st : TES) (ex : TaskRow)
    (hfind : st.tasks.find? (fun t => decide (t.id = tid ∧ t.user_id = u)) = some ex) :
    updateTask u tid none none none none none due st
      = (syncTaskEvent
          { ex with due_date := (match due with | some d => d | none => ex.due_date) } u
          { st with tasks := st.tasks.map (fun x =>
              if x.id = tid ∧ x.user_id = u then
                { ex with due_date := (match due with | some d => d | none => ex.due_date) }
              else x) },
         .ok ()) := by
  simp only [updateTask, hfind]
  rw [if_neg (show ¬ ((match (none : Option (Option Nat)) with
      | some (some p) => !(st.projects.contains (p, u))
      | _ => false) = true) by simp)]
  rfl

theorem map_append_single2 {α : Type} (l : List α) (x y : α) (g : α → α)
    (h : ∀ z ∈ l, g z = z) (hx : g x = y) : (l ++ [x]).map g = l ++ [y] := by
  rw [List.map_append, map_eq_self l g h]
  simp [hx]

theorem createTask_shape (u : Nat) (T D : String) (s0 : TES)
    (hT : ¬T = "") (hD : ¬D = "") (hbt : ∀ t ∈ s0.tasks, t.id < s0.nextTaskId) :
    (createTask u T none none none none (some D) s0).1
      = { tasks := s0.tasks ++ [{ mkDueTask u T D s0.nextTaskId with event_id := some s0.nextEventId }]
          events := s0.events ++ [mkDueEvent u T D s0.nextEventId]
          projects := s0.projects
          nextTaskId := s0.nextTaskId + 1
          nextEventId := s0.nextEventId + 1 } := by
  rw [createTask_eval u T D s0 hT hD]
  show syncTaskEvent (mkDueTask u T D s0.nextTaskId) u
      { s0 with tasks := s0.tasks ++ [mkDueTask u T D s0.nextTaskId],
                nextTaskId := s0.nextTaskId + 1 } = _
  rw [syncTaskEvent_insert _ u _ D rfl hD rfl]
  have htasks : (s0.tasks ++ [mkDueTask u T D s0.nextTaskId]).map
      (fun x => if x.id = s0.nextTaskId then { x with event_id := some s0.nextEventId } else x)
      = s0.tasks ++ [{ mkDueTask u T D s0.nextTaskId with event_id := some s0.nextEventId }] := by
    refine map_append_single2 _ _ _ _ (fun y hy => ?_) ?_
    · rw [if_neg]
      intro hcon
      have := hbt y hy
      omega
    · simp [mkDueTask]
  show ({ tasks := (s0.tasks ++ [mkDueTask u T D s0.nextTaskId]).map (fun x =>
            if x.id = s0.nextTaskId then { x with event_id := some s0.nextEventId } else x)
          events := s0.events ++ [mkDueEvent u T D s0.nextEventId]
          projects := s0.projects
          nextTaskId := s0.nextTaskId + 1
          nextEventId := s0.nextEventId + 1 } : TES) = _
  rw [htasks]

theorem updateTask_clear_shape (u tid : Nat) (tasks0 : List TaskRow) (tk : TaskRow)
    (evs : List EventRow) (projs : List (Nat × Nat)) (ntid neid : Nat)
    (hbt : ∀ t ∈ tasks0, t.id < tid) (hid : tk.id = tid) (hu : tk.user_id = u) :
    updateTask u tid none none none none none (some none)
        { tasks := tasks0 ++ [tk], events := evs, projects := projs,
          nextTaskId := ntid, nextEventId := neid }
      = (syncTaskEvent { tk with due_date := none } u
          { tasks := tasks0 ++ [{ tk with due_date := none }], events := evs,
            projects := projs, nextTaskId := ntid, nextEventId := neid }, .ok ()) := by
  have hfind : (tasks0 ++ [tk]).find? (fun t => decide (t.id = tid ∧ t.user_id = u)) = some tk := by
    refine find_append_single _ _ _ (fun y hy => ?_) ?_
    · exact decide_eq_false (fun hcon => by have := hbt y hy; omega)
    · simp [hid, hu]
  rw [updateTask_eval u tid (some none) _ tk hfind]
  have hmap : (tasks0 ++ [tk]).map
      (fun x => if x.id = tid ∧ x.user_id = u then { tk with due_date := none } else x)
      = tasks0 ++ [{ tk with due_date := none }] := by
    refine map_append_single2 _ _ _ _ (fun y hy => ?_) ?_
    · rw [if_neg]
      rintro ⟨h1, h2⟩
      have := hbt y hy
      omega
    · rw [if_pos ⟨hid, hu⟩]
  show (syncTaskEvent { tk with due_date := none } u
      { tasks := (tasks0 ++ [tk]).map (fun x =>
          if x.id = tid ∧ x.user_id = u then { tk with due_date := none } else x)
        events := evs
        projects := projs
        nextTaskId := ntid
        nextEventId := neid },
      (.ok () : Except String Unit)) = _
  rw [hmap]

theorem updateTask_set_shape (u tid : Nat) (d : String) (tasks0 : List TaskRow) (tk : TaskRow)
    (evs : List EventRow) (projs : List (Nat × Nat)) (ntid neid : Nat)
    (hbt : ∀ t ∈ tasks0, t.id < tid) (hid : tk.id = tid) (hu : tk.user_id = u) :
    updateTask u tid none none none none none (some (some d))
        { tasks := tasks0 ++ [tk], events := evs, projects := projs,
          nextTaskId := ntid, nextEventId := neid }
      = (syncTaskEvent { tk with due_date := some d } u
          { tasks := tasks0 ++ [{ tk with due_date := some d }], events := evs,
            projects := projs, nextTaskId := ntid, nextEventId := neid }, .ok ()) := by
  have hfind : (tasks0 ++ [tk]).find? (fun t => decide (t.id = tid ∧ t.user_id = u)) = some tk := by
    refine find_append_single _ _ _ (fun y hy => ?_) ?_
    · exact decide_eq_false (fun hcon => by have := hbt y hy; omega)
    · simp [hid, hu]
  rw [updateTask_eval u tid (some (some d)) _ tk hfind]
  have hmap : (tasks0 ++ [tk]).map
      (fun x => if x.id = tid ∧ x.user_id = u then { tk with due_date := some d } else x)
      = tasks0 ++ [{ tk with due_date := some d }] := by
    refine map_append_single2 _ _ _ _ (fun y hy => ?_) ?_
    · rw [if_neg]
      rintro ⟨h1, h2⟩
      have := hbt y hy
      omega
    · rw [if_pos ⟨hid, hu⟩]
  show (syncTaskEvent { tk with due_date := some d } u
      { tasks := (tasks0 ++ [tk]).map (fun x =>
          if x.id = tid ∧ x.user_id = u then { tk with due_date := some d } else x)
        events := evs
        projects := projs
        nextTaskId := ntid
        nextEventId := neid },
      (.ok () : Except String Unit)) = _
  rw [hmap]

/-- The task row of the round-trip scenario at a given linkage / due
stage: only `event_id` and `due_date` vary across the steps. -/
def taskStage (u tid : Nat) (T : String) (ev : Option Nat) (due : Option String) : TaskRow :=
  { id := tid, user_id := u, project_id := none, event_id := ev,
    title := T, description := none, priority := "medium", status := "pending",
    due_date := due }

theorem taskStage_set_event (u tid : Nat) (T : String) (ev ev2 : Option Nat)
    (due : Option String) :
    (if (taskStage u tid T ev due).id = tid
      then { taskStage u tid T ev due with event_id := ev2 }
      else taskStage u tid T ev due) = taskStage u tid T ev2 due := by
  rw [if_pos (show (taskStage u tid T ev due).id = tid from rfl)]
  rfl

/-- C8: creating a task with a non-empty due date D inserts exactly one
linked local all-day event starting at D and stores its id in the task;
clearing the due date afterwards deletes that event and nulls the link;
setting a due date D2 again inserts a fresh event (under a new id) and
re-links the task. -/
theorem task_due_event_roundtrip (u : Nat) (T D D2 : String) (s0 : TES)
    (hInv : TesInv s0) (hT : ¬T = "") (hD : ¬D = "") (hD2 : ¬D2 = "") :
    (createTask u T none none none none (some D) s0).2 = .ok s0.nextTaskId ∧
    (∃ t1, findTask (createTask u T none none none none (some D) s0).1 s0.nextTaskId = some t1
        ∧ t1.event_id = some s0.nextEventId) ∧
    (createTask u T none none none none (some D) s0).1.events = s0.events ++ [mkDueEvent u T D s0.nextEventId] ∧
    (mkDueEvent u T D s0.nextEventId).start_time = some D ∧
    (mkDueEvent u T D s0.nextEventId).all_day = true ∧
    (mkDueEvent u T D s0.nextEventId).source = "local" ∧
    (mkDueEvent u T D s0.nextEventId).external_id = none ∧
    (∃ t2, findTask ((updateTask u s0.nextTaskId none none none none none (some none) (createTask u T none none none none (some D) s0).1).1) s0.nextTaskId = some t2 ∧ t2.event_id = none) ∧
    ((updateTask u s0.nextTaskId none none none none none (some none) (createTask u T none none none none (some D) s0).1).1).events = s0.events ∧
    (∃ t3, findTask ((updateTask u s0.nextTaskId none none none none none (some (some D2)) (updateTask u s0.nextTaskId none none none none none (some none) (createTask u T none none none none (some D) s0).1).1).1) s0.nextTaskId = some t3
        ∧ t3.event_id = some (s0.nextEventId + 1)) ∧
    ¬ (s0.nextEventId + 1 = s0.nextEventId) ∧
    ((updateTask u s0.nextTaskId none none none none none (some (some D2)) (updateTask u s0.nextTaskId none none none none none (some none) (createTask u T none none none none (some D) s0).1).1).1).events = s0.events ++ [mkDueEvent u T D2 (s0.nextEventId + 1)] := by
  obtain ⟨hbt, hbe⟩ := hInv
  have hs1 : (createTask u T none none none none (some D) s0).1
      = { tasks := s0.tasks ++ [taskStage u s0.nextTaskId T (some s0.nextEventId) (some D)]
          events := s0.events ++ [mkDueEvent u T D s0.nextEventId]
          projects := s0.projects
          nextTaskId := s0.nextTaskId + 1
          nextEventId := s0.nextEventId + 1 } :=
    (createTask_shape u T D s0 hT hD hbt).trans rfl
  have hstep2 : updateTask u s0.nextTaskId none none none none none (some none)
        { tasks := s0.tasks ++ [taskStage u s0.nextTaskId T (some s0.nextEventId) (some D)]
          events := s0.events ++ [mkDueEvent u T D s0.nextEventId]
          projects := s0.projects
          nextTaskId := s0.nextTaskId + 1
          nextEventId := s0.nextEventId + 1 }
      = (syncTaskEvent (taskStage u s0.nextTaskId T (some s0.nextEventId) none) u
          { tasks := s0.tasks ++ [taskStage u s0.nextTaskId T (some s0.nextEventId) none]
            events := s0.events ++ [mkDueEvent u T D s0.nextEventId]
            projects := s0.projects
            nextTaskId := s0.nextTaskId + 1
            nextEventId := s0.nextEventId + 1 }, .ok ()) :=
    (updateTask_clear_shape u s0.nextTaskId s0.tasks (taskStage u s0.nextTaskId T (some s0.nextEventId) (some D))
      (s0.events ++ [mkDueEvent u T D s0.nextEventId]) s0.projects
      (s0.nextTaskId + 1) (s0.nextEventId + 1) hbt rfl rfl).trans rfl
  have hevfilter : (s0.events ++ [mkDueEvent u T D s0.nextEventId]).filter
        (fun r => !(decide (r.id = s0.nextEventId))) = s0.events := by
    rw [List.filter_append]
    have h1 : s0.events.filter (fun r => !(decide (r.id = s0.nextEventId))) = s0.events := by
      refine List.filter_eq_self.mpr (fun r hr => ?_)
      have := hbe r hr
      simp only [Bool.not_eq_true', decide_eq_false_iff_not]
      omega
    have h2 : ([mkDueEvent u T D s0.nextEventId] : List EventRow).filter
        (fun r => !(decide (r.id = s0.nextEventId))) = [] := by
      simp [mkDueEvent]
    rw [h1, h2, List.append_nil]
  have htasks2 : (s0.tasks ++ [taskStage u s0.nextTaskId T (some s0.nextEventId) none]).map (fun x =>
        if x.id = s0.nextTaskId then { x with event_id := none } else x)
      = s0.tasks ++ [taskStage u s0.nextTaskId T none none] := by
    refine map_append_single2 _ _ _ _ (fun y hy => ?_) ?_
    · rw [if_neg]
      intro hcon
      have := hbt y hy
      omega
    · exact taskStage_set_event u s0.nextTaskId T (some s0.nextEventId) none none
  have hsync2 : syncTaskEvent (taskStage u s0.nextTaskId T (some s0.nextEventId) none) u
        { tasks := s0.tasks ++ [taskStage u s0.nextTaskId T (some s0.nextEventId) none]
          events := s0.events ++ [mkDueEvent u T D s0.nextEventId]
          projects := s0.projects
          nextTaskId := s0.nextTaskId + 1
          nextEventId := s0.nextEventId + 1 }
      = { tasks := s0.tasks ++ [taskStage u s0.nextTaskId T none none]
          events := s0.events
          projects := s0.projects
          nextTaskId := s0.nextTaskId + 1
          nextEventId := s0.nextEventId + 1 } := by
    rw [syncTaskEvent_delete (taskStage u s0.nextTaskId T (some s0.nextEventId) none) u _ s0.nextEventId rfl rfl]
    show ({ tasks := (s0.tasks ++ [taskStage u s0.nextTaskId T (some s0.nextEventId) none]).map (fun x =>
              if x.id = s0.nextTaskId then { x with event_id := none } else x)
            events := (s0.events ++ [mkDueEvent u T D s0.nextEventId]).filter
              (fun r => !(decide (r.id = s0.nextEventId)))
            projects := s0.projects
            nextTaskId := s0.nextTaskId + 1
            nextEventId := s0.nextEventId + 1 } : TES) = _
    rw [hevfilter, htasks2]
  have hs2 : (updateTask u s0.nextTaskId none none none none none (some none) (createTask u T none none none none (some D) s0).1).1
      = { tasks := s0.tasks ++ [taskStage u s0.nextTaskId T none none]
          events := s0.events
          projects := s0.projects
          nextTaskId := s0.nextTaskId + 1
          nextEventId := s0.nextEventId + 1 } := by
    rw [hs1, hstep2]
    exact hsync2
  have hstep3 : updateTask u s0.nextTaskId none none none none none (some (some D2))
        { tasks := s0.tasks ++ [taskStage u s0.nextTaskId T none none]
          events := s0.events
          projects := s0.projects
          nextTaskId := s0.nextTaskId + 1
          nextEventId := s0.nextEventId + 1 }
      = (syncTaskEvent (taskStage u s0.nextTaskId T none (some D2)) u
          { tasks := s0.tasks ++ [taskStage u s0.nextTaskId T none (some D2)]
            events := s0.events
            projects := s0.projects
            nextTaskId := s0.nextTaskId + 1
            nextEventId := s0.nextEventId + 1 }, .ok ()) :=
    (updateTask_set_shape u s0.nextTaskId D2 s0.tasks (taskStage u s0.nextTaskId T none none)
      s0.events s0.projects (s0.nextTaskId + 1) (s0.nextEventId + 1) hbt rfl rfl).trans rfl
  have htasks3 : (s0.tasks ++ [taskStage u s0.nextTaskId T none (some D2)]).map (fun x =>
        if x.id = s0.nextTaskId then { x with event_id := some (s0.nextEventId + 1) } else x)
      = s0.tasks ++ [taskStage u s0.nextTaskId T (some (s0.nextEventId + 1)) (some D2)] := by
    refine map_append_single2 _ _ _ _ (fun y hy => ?_) ?_
    · rw [if_neg]
      intro hcon
      have := hbt y hy
      omega
    · exact taskStage_set_event u s0.nextTaskId T none (some (s0.nextEventId + 1)) (some D2)
  have hsync3 : syncTaskEvent (taskStage u s0.nextTaskId T none (some D2)) u
        { tasks := s0.tasks ++ [taskStage u s0.nextTaskId T none (some D2)]
          events := s0.events
          projects := s0.projects
          nextTaskId := s0.nextTaskId + 1
          nextEventId := s0.nextEventId + 1 }
      = { tasks := s0.tasks ++ [taskStage u s0.nextTaskId T (some (s0.nextEventId + 1)) (some D2)]
          events := s0.events ++ [mkDueEvent u T D2 (s0.nextEventId + 1)]
          projects := s0.projects
          nextTaskId := s0.nextTaskId + 1
          nextEventId := s0.nextEventId + 1 + 1 } := by
    rw [syncTaskEvent_insert (taskStage u s0.nextTaskId T none (some D2)) u _ D2 rfl hD2 rfl]
    show ({ tasks := (s0.tasks ++ [taskStage u s0.nextTaskId T none (some D2)]).map (fun x =>
              if x.id = s0.nextTaskId then { x with event_id := some (s0.nextEventId + 1) } else x)
            events := s0.events ++ [mkDueEvent u T D2 (s0.nextEventId + 1)]
            projects := s0.projects
            nextTaskId := s0.nextTaskId + 1
            nextEventId := s0.nextEventId + 1 + 1 } : TES) = _
    rw [htasks3]
  have hs3 : (updateTask u s0.nextTaskId none none none none none (some (some D2)) (updateTask u s0.nextTaskId none none none none none (some none) (createTask u T none none none none (some D) s0).1).1).1
      = { tasks := s0.tasks ++ [taskStage u s0.nextTaskId T (some (s0.nextEventId + 1)) (some D2)]
          events := s0.events ++ [mkDueEvent u T D2 (s0.nextEventId + 1)]
          projects := s0.projects
          nextTaskId := s0.nextTaskId + 1
          nextEventId := s0.nextEventId + 1 + 1 } := by
    rw [hs2, hstep3]
    exact hsync3
  refine ⟨?_, ?_, ?_, rfl, rfl, rfl, rfl, ?_, ?_, ?_, by omega, ?_⟩
  · rw [createTask_eval u T D s0 hT hD]
  · refine ⟨taskStage u s0.nextTaskId T (some s0.nextEventId) (some D), ?_, rfl⟩
    rw [hs1]
    show (s0.tasks ++ [taskStage u s0.nextTaskId T (some s0.nextEventId) (some D)]).find? (fun t => decide (t.id = s0.nextTaskId))
        = some (taskStage u s0.nextTaskId T (some s0.nextEventId) (some D))
    refine find_append_single _ _ _ (fun y hy => ?_) ?_
    · exact decide_eq_false (fun hcon => by have := hbt y hy; omega)
    · show decide (s0.nextTaskId = s0.nextTaskId) = true
      simp
  · rw [hs1]
  · refine ⟨taskStage u s0.nextTaskId T none none, ?_, rfl⟩
    rw [hs2]
    show (s0.tasks ++ [taskStage u s0.nextTaskId T none none]).find? (fun t => decide (t.id = s0.nextTaskId))
        = some (taskStage u s0.nextTaskId T none none)
    refine find_append_single _ _ _ (fun y hy => ?_) ?_
    · exact decide_eq_false (fun hcon => by have := hbt y hy; omega)
    · show decide (s0.nextTaskId = s0.nextTaskId) = true
      simp
  · rw [hs2]
  · refine ⟨taskStage u s0.nextTaskId T (some (s0.nextEventId + 1)) (some D2), ?_, rfl⟩
    rw [hs3]
    show (s0.tasks ++ [taskStage u s0.nextTaskId T (some (s0.nextEventId + 1)) (some D2)]).find? (fun t => decide (t.id = s0.nextTaskId))
        = some (taskStage u s0.nextTaskId T (some (s0.nextEventId + 1)) (some D2))
    refine find_append_single _ _ _ (fun y hy => ?_) ?_
    · exact decide_eq_false (fun hcon => by have := hbt y hy; omega)
    · show decide (s0.nextTaskId = s0.nextTaskId) = true
      simp
  · rw [hs3]

/-- The empty task/event store. -/
def emptyTES : TES :=
  { tasks := [], events := [], projects := [], nextTaskId := 1, nextEventId := 1 }

theorem tesInv_emptyTES : TesInv emptyTES := by
  constructor
  · intro t ht
    simp [emptyTES] at ht
  · intro r hr
    simp [emptyTES] at hr

/-- C8 witness: the concrete round trip from the empty store — create
with a due date, clear it, set a new one — shows the single linked
event appearing, disappearing, and reappearing under a fresh id. -/
theorem task_due_event_roundtrip_witness :
    (createTask 1 "Write report" none none none none (some "2024-05-01") emptyTES).2
        = .ok 1 ∧
    (createTask 1 "Write report" none none none none (some "2024-05-01") emptyTES).1.events
        = [mkDueEvent 1 "Write report" "2024-05-01" 1] ∧
    (updateTask 1 1 none none none none none (some none)
        (createTask 1 "Write report" none none none none (some "2024-05-01") emptyTES).1).1.events
        = [] ∧
    (updateTask 1 1 none none none none none (some (some "2024-06-01"))
        (updateTask 1 1 none none none none none (some none)
          (createTask 1 "Write report" none none none none (some "2024-05-01") emptyTES).1).1).1.events
        = [mkDueEvent 1 "Write report" "2024-06-01" 2] := by
  have h := task_due_event_roundtrip 1 "Write report" "2024-05-01" "2024-06-01" emptyTES
    tesInv_emptyTES (by decide) (by decide) (by decide)
  exact ⟨h.1, h.2.2.1, h.2.2.2.2.2.2.2.2.1, h.2.2.2.2.2.2.2.2.2.2.2⟩

end TheDeck

